import Mathlib

/-!
Shallow embedding of the `delivery-analytics` ETL pipeline
(`src/etl_pipeline.py`, class `DeliveryETL`), together with theorems
settling the frozen claims about its specification.

A pandas `DataFrame` is modelled as a `Table`: an ordered list of column
names and row-major cell values.  A cell is a `Value`: the missing
sentinel (`NaN`/`NaT`/`None`), a rational number (pandas numeric dtypes),
a text string, or a parsed timestamp (`datetime64`).
-/

namespace DeliveryETL

/-- A timestamp as produced by `pd.to_datetime`: a calendar date. -/
structure Timestamp where
  year : Int
  month : Nat
  day : Nat
deriving DecidableEq, Repr

/-- A single cell of the working table. `na` is the missing sentinel
(`NaN` for numeric and object columns, `NaT` for datetime columns). -/
inductive Value where
  | na : Value
  | num : Rat → Value
  | str : String → Value
  | date : Timestamp → Value
deriving DecidableEq, Repr

def Value.isNa : Value → Bool
  | .na => true
  | _ => false

def Value.isNum : Value → Bool
  | .num _ => true
  | _ => false

def Value.toNum : Value → Option Rat
  | .num q => some q
  | _ => none

/-- Decide whether `needle` is a leading segment of `hay` (char lists). -/
def charsLeadWith : List Char → List Char → Bool
  | [], _ => true
  | _ :: _, [] => false
  | a :: as, b :: bs => a == b && charsLeadWith as bs

/-- Decide whether `needle` occurs contiguously inside `hay` (char lists);
this models Python's `in` / pandas `str.contains` on a literal pattern. -/
def charsHaveSub : List Char → List Char → Bool
  | n, [] => n.isEmpty
  | n, h :: hs => charsLeadWith n (h :: hs) || charsHaveSub n hs

/-- `strHasSub hay needle`: `needle in hay` for strings. -/
def strHasSub (hay needle : String) : Bool :=
  charsHaveSub needle.toList hay.toList

/-- Lower-casing, character by character (`str.lower()`). -/
def strLower (s : String) : String :=
  ⟨s.toList.map Char.toLower⟩

/-- `"id" in c.lower()` and friends (line 59-61 of `etl_pipeline.py`). -/
def lowerHas (c needle : String) : Bool :=
  strHasSub (strLower c) needle

/-- Split a character list on `'-'`. -/
def splitDash : List Char → List (List Char)
  | [] => [[]]
  | c :: cs =>
    if c == '-' then [] :: splitDash cs
    else match splitDash cs with
         | [] => [[c]]
         | g :: gs => (c :: g) :: gs

/-- Read a non-empty all-digit character list as a number. -/
def charsToNat? (l : List Char) : Option Nat :=
  if l.isEmpty then none
  else if l.all Char.isDigit then
    some (l.foldl (fun n c => n * 10 + (c.toNat - 48)) 0)
  else none

/-- Model of `pd.to_datetime`'s string parsing restricted to ISO
`YYYY-MM-DD` dates; any other text fails to parse (is coerced to `NaT`,
since the code passes `errors="coerce"`). -/
def parseDate (s : String) : Option Timestamp :=
  match splitDash s.toList with
  | [ys, ms, ds] =>
    match charsToNat? ys, charsToNat? ms, charsToNat? ds with
    | some y, some m, some d =>
      if 1 ≤ m ∧ m ≤ 12 ∧ 1 ≤ d ∧ d ≤ 31 then some ⟨(y : Int), m, d⟩ else none
    | _, _, _ => none
  | _ => none

/-- Days since 1970-01-01 of a civil date (standard civil-calendar
computation), used for the day-of-week derivation. -/
def daysFromCivil (y : Int) (m : Nat) (d : Nat) : Int :=
  let y' : Int := if m ≤ 2 then y - 1 else y
  let era : Int := (if 0 ≤ y' then y' else y' - 399) / 400
  let yoe : Int := y' - era * 400
  let mp : Nat := (m + 9) % 12
  let doy : Int := ((153 * (mp : Int) + 2) / 5) + (d : Int) - 1
  let doe : Int := yoe * 365 + yoe / 4 - yoe / 100 + doy
  era * 146097 + doe - 719468

/-- `Series.dt.dayofweek`: Monday = 0, …, Sunday = 6. -/
def Timestamp.dayOfWeek (ts : Timestamp) : Nat :=
  ((daysFromCivil ts.year ts.month ts.day + 3) % 7).toNat

def weekDayNames : List String :=
  ["Monday", "Tuesday", "Wednesday", "Thursday", "Friday", "Saturday", "Sunday"]

/-- `Series.dt.day_name()`. -/
def Timestamp.dayName (ts : Timestamp) : String :=
  weekDayNames.getD ts.dayOfWeek ""

/-- `astype(str)` on a single cell: missing values print as "nan"
(floats) and unparsed text stays itself; numbers and timestamps render
to digit strings (which never match any status keyword). -/
def Value.asPyStr : Value → String
  | .na => "nan"
  | .num q => toString q.num ++ (if q.den == 1 then ".0" else "/" ++ toString q.den)
  | .str s => s
  | .date ts => toString ts.year ++ "-" ++ toString ts.month ++ "-" ++ toString ts.day

/-- Median of a list of rationals (pandas `Series.median` over the
non-missing entries): sort, then middle element or mean of the two
middle elements; undefined (NaN) on an empty list. -/
def insertSorted (q : Rat) : List Rat → List Rat
  | [] => [q]
  | x :: xs => if q ≤ x then q :: x :: xs else x :: insertSorted q xs

def sortRats (l : List Rat) : List Rat := l.foldr insertSorted []

def median (l : List Rat) : Option Rat :=
  let s := sortRats l
  let n := s.length
  if n = 0 then none
  else if n % 2 = 1 then some (s.getD (n / 2) 0)
  else some ((s.getD (n / 2 - 1) 0 + s.getD (n / 2) 0) / 2)

/-- The working table: ordered column names plus row-major cells. -/
structure Table where
  cols : List String
  rows : List (List Value)
deriving DecidableEq, Repr

/-- Well-formedness: the table is rectangular (every row has one cell
per column), as any pandas DataFrame is. -/
def Table.WF (t : Table) : Prop :=
  ∀ r ∈ t.rows, r.length = t.cols.length

instance (t : Table) : Decidable t.WF := by
  unfold Table.WF; infer_instance

/-- `[c for c in df.columns if "id" in c.lower()]` (line 59). -/
def Table.idCols (t : Table) : List String :=
  t.cols.filter (fun c => lowerHas c "id")

/-- `[c for c in df.columns if "date" in c.lower()]` (line 60). -/
def Table.dateCols (t : Table) : List String :=
  t.cols.filter (fun c => lowerHas c "date")

/-- `[c for c in df.columns if "status" in c.lower()]` (line 61). -/
def Table.statusCols (t : Table) : List String :=
  t.cols.filter (fun c => lowerHas c "status")

/-- The values of column `j` (missing where a row is too short). -/
def Table.col (t : Table) (j : Nat) : List Value :=
  t.rows.map (fun r => r.getD j .na)

/-- Step 2.1 (lines 67-70): `df = df.dropna(subset=id_cols[:1])` — drop
every row whose first identifier-like column is missing; skipped when no
identifier-like column exists. -/
def dropIdNa (t : Table) : Table :=
  match t.idCols.head? with
  | some c =>
    let j := t.cols.findIdx (· == c)
    ⟨t.cols, t.rows.filter (fun r => !(r.getD j .na).isNa)⟩
  | none => t

/-- `pd.api.types.is_numeric_dtype`: a CSV-read column is numeric iff
every present cell is a number (an all-missing column reads as float). -/
def isNumericCol (vs : List Value) : Bool :=
  vs.all (fun v => v.isNa || v.isNum)

/-- The value `fillna` uses for one column (lines 73-77): its median for
a numeric column (`NaN`, i.e. no change, when the median of an
all-missing column is itself `NaN`), the sentinel `"Unknown"` otherwise. -/
def fillValueFor (vs : List Value) : Value :=
  if isNumericCol vs then
    match median (vs.filterMap Value.toNum) with
    | some m => .num m
    | none => .na
  else .str "Unknown"

/-- Step 2.1 fill (lines 73-77): per column, replace missing cells by
the column's fill value. -/
def fillMissing (t : Table) : Table :=
  let fv := (List.range t.cols.length).map (fun j => fillValueFor (t.col j))
  ⟨t.cols, t.rows.map (fun r => List.zipWith (fun v f => if v.isNa then f else v) r fv)⟩

/-- `pd.to_datetime(cell, errors="coerce")`: timestamps pass through,
strings parse or coerce to `NaT`, anything else coerces to `NaT`. -/
def toDatetime : Value → Value
  | .na => .na
  | .num _ => .na
  | .str s => match parseDate s with
              | some ts => .date ts
              | none => .na
  | .date ts => .date ts

/-- Step 2.2 (lines 85-86): convert every date-like column. -/
def convertDates (t : Table) : Table :=
  let idxs := t.dateCols.map (fun c => t.cols.findIdx (· == c))
  ⟨t.cols,
   t.rows.map (fun r =>
     (r.enum).map (fun p => if idxs.elem p.1 then toDatetime p.2 else p.2))⟩

/-- `df[name] = <per-row value>`: overwrite the column (at its first
index) when the name exists, else append it at the end. -/
def Table.setColF (t : Table) (name : String) (f : List Value → Value) : Table :=
  if name ∈ t.cols then
    ⟨t.cols, t.rows.map (fun r => r.set (t.cols.findIdx (· == name)) (f r))⟩
  else ⟨t.cols ++ [name], t.rows.map (fun r => r ++ [f r])⟩

def yearV : Value → Value
  | .date ts => .num ts.year
  | _ => .na

def monthV : Value → Value
  | .date ts => .num ts.month
  | _ => .na

def dowV : Value → Value
  | .date ts => .num ts.dayOfWeek
  | _ => .na

def dayNameV : Value → Value
  | .date ts => .str ts.dayName
  | _ => .na

/-- Step 2.3 (lines 89-95): derive the four time-feature columns from
the first date-like column; skipped when none exists. -/
def addTimeFeatures (t : Table) : Table :=
  match t.dateCols.head? with
  | none => t
  | some c =>
    let t1 := t.setColF "order_year"
      (fun r => yearV (r.getD (t.cols.findIdx (· == c)) .na))
    let t2 := t1.setColF "order_month"
      (fun r => monthV (r.getD (t1.cols.findIdx (· == c)) .na))
    let t3 := t2.setColF "order_day_of_week"
      (fun r => dowV (r.getD (t2.cols.findIdx (· == c)) .na))
    t3.setColF "order_day_name"
      (fun r => dayNameV (r.getD (t3.cols.findIdx (· == c)) .na))

def deliveredKeys : List String := ["delivered", "completed", "success", "delivered on time"]

def lateKeys : List String := ["late", "delay"]

/-- `status_lower.str.contains(k1|k2|...)` on one cell after
`astype(str).str.lower()`. -/
def statusMatches (keys : List String) (v : Value) : Bool :=
  keys.any (fun k => strHasSub (strLower v.asPyStr) k)

def boolInt (b : Bool) : Value := .num (if b then 1 else 0)

/-- Step 2.4 (lines 98-108): derive the three status flags from the
first status-like column; skipped when none exists.  `is_on_time` is
computed from the just-assigned `is_delivered` and `is_late` columns. -/
def addFlags (t : Table) : Table :=
  match t.statusCols.head? with
  | none => t
  | some c =>
    let t1 := t.setColF "is_delivered"
      (fun r => boolInt (statusMatches deliveredKeys (r.getD (t.cols.findIdx (· == c)) .na)))
    let t2 := t1.setColF "is_late"
      (fun r => boolInt (statusMatches lateKeys (r.getD (t1.cols.findIdx (· == c)) .na)))
    t2.setColF "is_on_time"
      (fun r => boolInt ((r.getD (t2.cols.findIdx (· == "is_delivered")) .na) == .num 1 &&
                         (r.getD (t2.cols.findIdx (· == "is_late")) .na) == .num 0))

/-- `drop_duplicates()` keep-first, with an accumulator of rows already
seen. -/
def keepFirst {α : Type} [DecidableEq α] : List α → List α → List α
  | _, [] => []
  | seen, r :: rs => if r ∈ seen then keepFirst seen rs else r :: keepFirst (r :: seen) rs

/-- Step 2.5 (lines 110-114): remove fully-duplicate rows, keeping the
first occurrence. -/
def dedupRows (t : Table) : Table :=
  ⟨t.cols, keepFirst [] t.rows⟩

/-- The transform pipeline up to (not including) deduplication. -/
def preDedup (t : Table) : Table :=
  addFlags (addTimeFeatures (convertDates (fillMissing (dropIdNa t))))

/-- `DeliveryETL.transform` (lines 51-120) on the working table. -/
def transform (t : Table) : Table :=
  dedupRows (preDedup t)

/-- Some cell of the table is missing. -/
def hasMissing (t : Table) : Bool :=
  t.rows.any (fun r => r.any Value.isNa)

/-! ### Validate (lines 123-139)

`validate` only reads `self.clean_df` and prints diagnostics; it never
reassigns the table.  The one place it can raise is the unguarded
division `df[id_cols[0]].nunique() / float(len(df))`: Python raises
`ZeroDivisionError` when `len(df) = 0`.  The missing-percentage metric
is guarded (`if total_cells else 0`). -/

inductive ValidateErr where
  | zeroDivision : ValidateErr
deriving DecidableEq, Repr

structure Diagnostics where
  rowCount : Nat
  colCount : Nat
  idUniqueRatio : Option Rat
  missingPct : Rat
deriving DecidableEq, Repr

/-- `nunique()`: number of distinct non-missing values. -/
def nunique (vs : List Value) : Nat :=
  (keepFirst [] (vs.filter (fun v => !v.isNa))).length

/-- Count of missing cells (`df.isnull().sum().sum()`). -/
def totalMissing (t : Table) : Nat :=
  (t.rows.map (fun r => (r.filter Value.isNa).length)).sum

/-- `DeliveryETL.validate` (lines 123-139). -/
def validate (t : Table) : Except ValidateErr Diagnostics :=
  let totalCells := t.rows.length * t.cols.length
  let missingPct : Rat :=
    if totalCells = 0 then 0 else (totalMissing t : Rat) / (totalCells : Rat) * 100
  match t.idCols.head? with
  | some c =>
    if t.rows.length = 0 then .error .zeroDivision
    else
      let j := t.cols.findIdx (· == c)
      .ok ⟨t.rows.length, t.cols.length,
           some ((nunique (t.col j) : Rat) / (t.rows.length : Rat)), missingPct⟩
  | none => .ok ⟨t.rows.length, t.cols.length, none, missingPct⟩

/-! ### Extract and pipeline orchestration (lines 35-48, 249-270)

`extract` raises `FileNotFoundError` (the spec's *SourceNotFound*) iff
the configured raw path does not exist; an exception aborts the chained
`extract().transform().validate().load_to_csv()` run before any write to
the processed-dataset path. -/

inductive ETLError where
  | sourceNotFound : ETLError
  | validationError : ValidateErr → ETLError
deriving DecidableEq, Repr

/-- The file-system/pipeline state visible to a run: whether the raw
dataset exists and what it holds, and the current contents of the
processed-dataset path (none if that file does not exist). -/
structure PipeState where
  rawExists : Bool
  rawTable : Table
  processedOut : Option Table
deriving DecidableEq, Repr

/-- `DeliveryETL.extract` (lines 35-48). -/
def extract (s : PipeState) : Except ETLError Table :=
  if s.rawExists then .ok s.rawTable else .error .sourceNotFound

/-! ### Database sink (lines 152-246)

The whole body after the driver-availability check sits in one
`try/except Exception`; the handler prints the error and falls through
to `return self`.  The success path closes the cursor and connection
(lines 238-239); the handler does **not** close them.  A `DBEnv` records
which of the fallible external steps would succeed. -/

structure DBEnv where
  driverAvailable : Bool
  connectOk : Bool
  dropOk : Bool
  createOk : Bool
  insertOk : Bool
  verifyOk : Bool
deriving DecidableEq, Repr

inductive DBFail where
  | connect | dropTable | createTable | insert | verify
deriving DecidableEq, Repr

inductive DBOutcome where
  | skipped
  | loaded (rowCount : Nat)
  | failedLogged
deriving DecidableEq, Repr

structure DBTrace where
  connOpened : Bool
  connClosed : Bool
  outcome : DBOutcome
deriving DecidableEq, Repr

/-- The `try` block body (lines 160-239): each external call either
succeeds or raises, aborting the rest of the block.  Returns whether a
connection was opened along with the block's result; on full success
the block itself closes the connection. -/
def dbAttempt (env : DBEnv) (df : Table) : Bool × Except DBFail Nat :=
  if !env.connectOk then (false, .error .connect)
  else if !env.dropOk then (true, .error .dropTable)
  else if !env.createOk then (true, .error .createTable)
  else if !env.insertOk then (true, .error .insert)
  else if !env.verifyOk then (true, .error .verify)
  else (true, .ok df.rows.length)

/-- `DeliveryETL.load_to_database` (lines 152-246). -/
def loadToDatabase (env : DBEnv) (df : Table) : DBTrace :=
  if !env.driverAvailable then ⟨false, false, .skipped⟩
  else
    match dbAttempt env df with
    | (opened, .ok n) => ⟨opened, true, .loaded n⟩
    | (opened, .error _) => ⟨opened, false, .failedLogged⟩

/-- `DeliveryETL.run` (lines 249-270): `extract → transform → validate
→ load_to_csv → (optionally) load_to_database`, with any raised
exception aborting the chain at the point it occurs. -/
def runPipeline (s : PipeState) (env : DBEnv) (loadDb : Bool) :
    PipeState × Except ETLError (Option DBTrace) :=
  match extract s with
  | .error e => (s, .error e)
  | .ok raw =>
    let clean := transform raw
    match validate clean with
    | .error e => (s, .error (.validationError e))
    | .ok _ =>
      let s' := { s with processedOut := some clean }
      let tr := if loadDb then some (loadToDatabase env clean) else none
      (s', .ok tr)

/-! ### Heap model for the transform frame effect (lines 51-53)

`transform` begins with `df = self.raw_df.copy()` and applies every
mutation to the copy.  A small heap of tables makes the copy observable:
references are indices, `copy` allocates a fresh cell, and the pipeline
writes only to the fresh cell. -/

structure EtlHeap where
  cells : List Table
deriving Repr

/-- `raw_df.copy()`: allocate a fresh cell holding the same table. -/
def copyAlloc (h : EtlHeap) (t : Table) : EtlHeap × Nat :=
  (⟨h.cells ++ [t]⟩, h.cells.length)

def writeRef (h : EtlHeap) (i : Nat) (t : Table) : EtlHeap :=
  ⟨h.cells.set i t⟩

def emptyTable : Table := ⟨[], []⟩

/-- `DeliveryETL.transform` acting on the heap: read `self.raw_df`,
copy it, run the cleaning pipeline mutating the copy, and return the
reference stored into `self.clean_df`. -/
def transformOnHeap (h : EtlHeap) (rawRef : Nat) : EtlHeap × Nat :=
  let t := h.cells.getD rawRef emptyTable
  let (h1, dfRef) := copyAlloc h t
  let h2 := writeRef h1 dfRef (transform t)
  (h2, dfRef)

/-! ### Derived-column names and spec-side definitions -/

def timeFeatureNames : List String :=
  ["order_year", "order_month", "order_day_of_week", "order_day_name"]

def flagNames : List String := ["is_delivered", "is_late", "is_on_time"]

def derivedNames : List String := timeFeatureNames ++ flagNames

/-- Spec-side deduplication, written from the spec's words: scan the
rows in order and keep each row only if it was not kept before
("keeping the first occurrence in current row order"). -/
def specKeepFirst {α : Type} [DecidableEq α] (l : List α) : List α :=
  l.foldl (fun acc r => if r ∈ acc then acc else acc ++ [r]) []

/-- `b` extends `a` by column names satisfying `P`. -/
def ColsExt (P : String → Prop) (a b : List String) : Prop :=
  ∃ ns, b = a ++ ns ∧ ∀ n ∈ ns, P n

/-- `df[n]` at one row: the cell of `r` in the first column named `n`
(missing when no such column exists). -/
def Table.cell (t : Table) (r : List Value) (n : String) : Value :=
  r.getD (t.cols.findIdx (· == n)) .na

/-- Row form of the time-feature stage when all four derived columns
already exist (the overwrite regime); used to characterize
`addTimeFeatures` in the idempotence proof. -/
def timeRowF (cols : List String) (c : String) (r : List Value) : List Value :=
  let v := r.getD (cols.findIdx (· == c)) .na
  (((r.set (cols.findIdx (· == "order_year")) (yearV v)).set
      (cols.findIdx (· == "order_month")) (monthV v)).set
      (cols.findIdx (· == "order_day_of_week")) (dowV v)).set
      (cols.findIdx (· == "order_day_name")) (dayNameV v)

/-- Row form of the flag stage when all three flag columns already
exist (the overwrite regime). -/
def flagRowF (cols : List String) (c : String) (r : List Value) : List Value :=
  let v := r.getD (cols.findIdx (· == c)) .na
  let vd := boolInt (statusMatches deliveredKeys v)
  let vl := boolInt (statusMatches lateKeys v)
  ((r.set (cols.findIdx (· == "is_delivered")) vd).set
      (cols.findIdx (· == "is_late")) vl).set
      (cols.findIdx (· == "is_on_time")) (boolInt (vd == Value.num 1 && vl == Value.num 0))

/-- The row transformation applied by `fillMissing` relative to a table
(used to reason about a second transform pass). -/
def fillRowU (t : Table) (r : List Value) : List Value :=
  List.zipWith (fun v f => if v.isNa then f else v) r
    ((List.range t.cols.length).map (fun j => fillValueFor (t.col j)))

/-- The row transformation applied by `convertDates` relative to a
table. -/
def convRowU (t : Table) (r : List Value) : List Value :=
  (r.enum).map (fun p =>
    if (t.dateCols.map (fun c => t.cols.findIdx (· == c))).elem p.1
    then toDatetime p.2 else p.2)

/-! ## Lemmas about keep-first deduplication -/

theorem keepFirst_mem {α : Type} [DecidableEq α] :
    ∀ (l seen : List α) (x : α), x ∈ keepFirst seen l → x ∈ l ∧ x ∉ seen := by
  intro l
  induction l with
  | nil => intro seen x hx; simp [keepFirst] at hx
  | cons r rs ih =>
    intro seen x hx
    by_cases hr : r ∈ seen
    · simp only [keepFirst, if_pos hr] at hx
      rcases ih seen x hx with ⟨h1, h2⟩
      exact ⟨List.mem_cons_of_mem _ h1, h2⟩
    · simp only [keepFirst, if_neg hr] at hx
      rcases List.mem_cons.mp hx with h | h
      · subst h; exact ⟨List.mem_cons_self _ _, hr⟩
      · rcases ih _ x h with ⟨h1, h2⟩
        refine ⟨List.mem_cons_of_mem _ h1, ?_⟩
        intro hc; exact h2 (List.mem_cons_of_mem _ hc)

theorem keepFirst_pairwise {α : Type} [DecidableEq α] :
    ∀ (l seen : List α), List.Pairwise (· ≠ ·) (keepFirst seen l) := by
  intro l
  induction l with
  | nil => intro seen; simp [keepFirst]
  | cons r rs ih =>
    intro seen
    by_cases hr : r ∈ seen
    · simp only [keepFirst, if_pos hr]; exact ih seen
    · simp only [keepFirst, if_neg hr]
      refine List.pairwise_cons.mpr ⟨?_, ih _⟩
      intro x hx he
      rcases keepFirst_mem rs (r :: seen) x hx with ⟨_, h2⟩
      exact h2 (he ▸ List.mem_cons_self _ _)

theorem keepFirst_seen_congr {α : Type} [DecidableEq α] :
    ∀ (l s1 s2 : List α), (∀ x, x ∈ s1 ↔ x ∈ s2) → keepFirst s1 l = keepFirst s2 l := by
  intro l
  induction l with
  | nil => intro s1 s2 _; rfl
  | cons r rs ih =>
    intro s1 s2 hiff
    by_cases hr : r ∈ s1
    · simp only [keepFirst, if_pos hr, if_pos ((hiff r).mp hr)]
      exact ih s1 s2 hiff
    · have hr2 : r ∉ s2 := fun hc => hr ((hiff r).mpr hc)
      simp only [keepFirst, if_neg hr, if_neg hr2]
      refine congrArg _ (ih _ _ ?_)
      intro x; simp only [List.mem_cons]
      exact or_congr Iff.rfl (hiff x)

theorem foldl_keepFirst {α : Type} [DecidableEq α] :
    ∀ (l acc : List α),
      l.foldl (fun acc r => if r ∈ acc then acc else acc ++ [r]) acc =
        acc ++ keepFirst acc l := by
  intro l
  induction l with
  | nil => intro acc; simp [keepFirst]
  | cons r rs ih =>
    intro acc
    by_cases hr : r ∈ acc
    · simp only [List.foldl_cons, if_pos hr, keepFirst, ih]
    · simp only [List.foldl_cons, if_neg hr, keepFirst, ih]
      rw [keepFirst_seen_congr rs (acc ++ [r]) (r :: acc) (by intro x; simp [or_comm]),
        List.append_assoc]
      rfl

theorem keepFirst_of_pairwise {α : Type} [DecidableEq α] :
    ∀ (l seen : List α), List.Pairwise (· ≠ ·) l → (∀ x ∈ l, x ∉ seen) →
      keepFirst seen l = l := by
  intro l
  induction l with
  | nil => intro seen _ _; rfl
  | cons r rs ih =>
    intro seen hp hd
    have hr : r ∉ seen := hd r (List.mem_cons_self _ _)
    simp only [keepFirst, if_neg hr]
    refine congrArg _ (ih _ (List.pairwise_cons.mp hp).2 ?_)
    intro x hx
    simp only [List.mem_cons]
    rintro (h | h)
    · exact (List.pairwise_cons.mp hp).1 x hx h.symm
    · exact hd x (List.mem_cons_of_mem _ hx) h

/-! ## Small list lemmas (cell access through row operations) -/

theorem getD_set_ne {α : Type} (r : List α) (i j : Nat) (v d : α) (h : i ≠ j) :
    (r.set i v).getD j d = r.getD j d := by
  rw [List.getD_eq_getElem?_getD, List.getD_eq_getElem?_getD, List.getElem?_set_ne h]

theorem getD_set_self {α : Type} (r : List α) (i : Nat) (v d : α) (h : i < r.length) :
    (r.set i v).getD i d = v := by
  rw [List.getD_eq_getElem?_getD, List.getElem?_set_self h]
  rfl

theorem getD_append_lt {α : Type} (r s : List α) (j : Nat) (d : α) (h : j < r.length) :
    (r ++ s).getD j d = r.getD j d := by
  rw [List.getD_eq_getElem?_getD, List.getD_eq_getElem?_getD, List.getElem?_append_left h]

theorem getD_append_self {α : Type} (r : List α) (v d : α) :
    (r ++ [v]).getD r.length d = v := by
  rw [List.getD_eq_getElem?_getD, List.getElem?_append_right (Nat.le_refl _)]
  simp

/-! ## findIdx facts for column lookup -/

theorem findIdx_name_lt {cols : List String} {c : String} (h : c ∈ cols) :
    cols.findIdx (· == c) < cols.length :=
  List.findIdx_lt_length_of_exists ⟨c, h, by simp⟩

theorem getD_findIdx_name {cols : List String} {c : String} (h : c ∈ cols) :
    cols.getD (cols.findIdx (· == c)) "" = c := by
  rw [List.getD_eq_getElem cols "" (findIdx_name_lt h)]
  exact eq_of_beq (@List.findIdx_getElem _ _ _ (findIdx_name_lt h))

theorem findIdx_append_lt {α : Type} (l1 l2 : List α) (p : α → Bool)
    (h : l1.findIdx p < l1.length) : (l1 ++ l2).findIdx p = l1.findIdx p := by
  induction l1 with
  | nil => simp at h
  | cons a l ih =>
    by_cases hp : p a
    · simp [List.findIdx_cons, hp]
    · simp only [List.findIdx_cons, hp, cond_false, List.cons_append, List.length_cons] at h ⊢
      rw [ih (by omega)]

/-! ## Column-list evolution through the stages -/

theorem dropIdNa_cols (t : Table) : (dropIdNa t).cols = t.cols := by
  rcases h : t.idCols.head? with _ | c <;> simp [dropIdNa, h]

theorem fillMissing_cols (t : Table) : (fillMissing t).cols = t.cols := rfl

theorem convertDates_cols (t : Table) : (convertDates t).cols = t.cols := rfl

theorem dedupRows_cols (t : Table) : (dedupRows t).cols = t.cols := rfl

theorem colsExt_refl (P : String → Prop) (a : List String) : ColsExt P a a :=
  ⟨[], by simp, by simp⟩

theorem colsExt_trans {P : String → Prop} {a b c : List String}
    (h1 : ColsExt P a b) (h2 : ColsExt P b c) : ColsExt P a c := by
  rcases h1 with ⟨n1, rfl, hp1⟩
  rcases h2 with ⟨n2, rfl, hp2⟩
  refine ⟨n1 ++ n2, by simp, ?_⟩
  intro n hn
  rcases List.mem_append.mp hn with h | h
  exacts [hp1 n h, hp2 n h]

theorem colsExt_mono {P Q : String → Prop} {a b : List String}
    (h : ColsExt P a b) (hpq : ∀ n, P n → Q n) : ColsExt Q a b := by
  rcases h with ⟨ns, rfl, hp⟩
  exact ⟨ns, rfl, fun n hn => hpq n (hp n hn)⟩

theorem setColF_colsExt (t : Table) (n : String) (f : List Value → Value) :
    ColsExt (· = n) t.cols (t.setColF n f).cols := by
  by_cases h : n ∈ t.cols
  · simp only [Table.setColF, if_pos h]
    exact colsExt_refl _ _
  · simp only [Table.setColF, if_neg h]
    exact ⟨[n], rfl, by simp⟩

theorem addTimeFeatures_colsExt (t : Table) :
    ColsExt (· ∈ timeFeatureNames) t.cols (addTimeFeatures t).cols := by
  unfold addTimeFeatures
  rcases t.dateCols.head? with _ | c
  · exact colsExt_refl _ _
  · refine colsExt_trans (colsExt_mono (setColF_colsExt _ _ _) ?_)
      (colsExt_trans (colsExt_mono (setColF_colsExt _ _ _) ?_)
        (colsExt_trans (colsExt_mono (setColF_colsExt _ _ _) ?_)
          (colsExt_mono (setColF_colsExt _ _ _) ?_))) <;>
    · intro n hn; subst hn; simp [timeFeatureNames]

theorem addFlags_colsExt (t : Table) :
    ColsExt (· ∈ flagNames) t.cols (addFlags t).cols := by
  unfold addFlags
  rcases t.statusCols.head? with _ | c
  · exact colsExt_refl _ _
  · refine colsExt_trans (colsExt_mono (setColF_colsExt _ _ _) ?_)
      (colsExt_trans (colsExt_mono (setColF_colsExt _ _ _) ?_)
        (colsExt_mono (setColF_colsExt _ _ _) ?_)) <;>
    · intro n hn; subst hn; simp [flagNames]

theorem preDedup_colsExt (t : Table) :
    ColsExt (· ∈ derivedNames) t.cols (preDedup t).cols := by
  unfold preDedup
  have h1 : ColsExt (· ∈ derivedNames) t.cols (convertDates (fillMissing (dropIdNa t))).cols := by
    rw [convertDates_cols, fillMissing_cols, dropIdNa_cols]
    exact colsExt_refl _ _
  refine colsExt_trans h1 (colsExt_trans
    (colsExt_mono (addTimeFeatures_colsExt _) ?_)
    (colsExt_mono (addFlags_colsExt _) ?_)) <;>
  · intro n hn; simp [derivedNames, timeFeatureNames, flagNames] at hn ⊢; tauto

theorem transform_colsExt (t : Table) :
    ColsExt (· ∈ derivedNames) t.cols (transform t).cols := by
  rw [transform, dedupRows_cols]
  exact preDedup_colsExt t

/-! ## Well-formedness preservation -/

theorem dropIdNa_wf {t : Table} (h : t.WF) : (dropIdNa t).WF := by
  rcases hh : t.idCols.head? with _ | c
  · simpa [dropIdNa, hh] using h
  · intro r hr
    simp only [dropIdNa, hh] at hr ⊢
    exact h r (List.mem_of_mem_filter hr)

theorem fillMissing_wf {t : Table} (h : t.WF) : (fillMissing t).WF := by
  intro r hr
  simp only [fillMissing] at hr ⊢
  rcases List.mem_map.mp hr with ⟨r0, hr0, rfl⟩
  rw [List.length_zipWith, h r0 hr0, List.length_map, List.length_range]
  exact Nat.min_self _

theorem convertDates_wf {t : Table} (h : t.WF) : (convertDates t).WF := by
  intro r hr
  simp only [convertDates] at hr ⊢
  rcases List.mem_map.mp hr with ⟨r0, hr0, rfl⟩
  rw [List.length_map, List.enum_length]
  exact h r0 hr0

theorem setColF_wf {t : Table} (n : String) (f : List Value → Value) (h : t.WF) :
    (t.setColF n f).WF := by
  by_cases hm : n ∈ t.cols
  · intro r hr
    simp only [Table.setColF, if_pos hm] at hr ⊢
    rcases List.mem_map.mp hr with ⟨r0, hr0, rfl⟩
    rw [List.length_set]
    exact h r0 hr0
  · intro r hr
    simp only [Table.setColF, if_neg hm] at hr ⊢
    rcases List.mem_map.mp hr with ⟨r0, hr0, rfl⟩
    simp [List.length_append, h r0 hr0]

theorem addTimeFeatures_wf {t : Table} (h : t.WF) : (addTimeFeatures t).WF := by
  unfold addTimeFeatures
  rcases t.dateCols.head? with _ | c
  · exact h
  · exact setColF_wf _ _ (setColF_wf _ _ (setColF_wf _ _ (setColF_wf _ _ h)))

theorem addFlags_wf {t : Table} (h : t.WF) : (addFlags t).WF := by
  unfold addFlags
  rcases t.statusCols.head? with _ | c
  · exact h
  · exact setColF_wf _ _ (setColF_wf _ _ (setColF_wf _ _ h))

theorem dedupRows_wf {t : Table} (h : t.WF) : (dedupRows t).WF := by
  intro r hr
  exact h r (keepFirst_mem _ _ _ hr).1

theorem preDedup_wf {t : Table} (h : t.WF) : (preDedup t).WF :=
  addFlags_wf (addTimeFeatures_wf (convertDates_wf (fillMissing_wf (dropIdNa_wf h))))

theorem transform_wf {t : Table} (h : t.WF) : (transform t).WF :=
  dedupRows_wf (preDedup_wf h)

/-! ## Cell descriptions of each stage's rows -/

theorem dropIdNa_rows_of_some {t : Table} {c : String} (h : t.idCols.head? = some c) :
    dropIdNa t =
      ⟨t.cols, t.rows.filter (fun r => !(r.getD (t.cols.findIdx (· == c)) .na).isNa)⟩ := by
  simp [dropIdNa, h]

theorem dropIdNa_rows_of_none {t : Table} (h : t.idCols.head? = none) :
    dropIdNa t = t := by
  simp [dropIdNa, h]

theorem fillMissing_cell {t : Table} (hwf : t.WF) {r' : List Value}
    (hr' : r' ∈ (fillMissing t).rows) :
    ∃ r ∈ t.rows, r'.length = t.cols.length ∧ ∀ j, j < t.cols.length →
      r'.getD j .na =
        (if (r.getD j .na).isNa then fillValueFor (t.col j) else r.getD j .na) := by
  simp only [fillMissing] at hr'
  rcases List.mem_map.mp hr' with ⟨r, hr, rfl⟩
  have hlen : r.length = t.cols.length := hwf r hr
  have hzlen : (List.zipWith (fun v f => if v.isNa then f else v) r
      ((List.range t.cols.length).map (fun j => fillValueFor (t.col j)))).length =
      t.cols.length := by
    rw [List.length_zipWith, hlen, List.length_map, List.length_range]
    exact Nat.min_self _
  refine ⟨r, hr, hzlen, ?_⟩
  intro j hj
  have h1 : j < (List.zipWith (fun v f => if v.isNa then f else v) r
      ((List.range t.cols.length).map (fun j => fillValueFor (t.col j)))).length := by
    rw [hzlen]; exact hj
  rw [List.getD_eq_getElem _ _ h1, List.getElem_zipWith,
    List.getD_eq_getElem r _ (by omega)]
  have h2 : j < ((List.range t.cols.length).map (fun j => fillValueFor (t.col j))).length := by
    rw [List.length_map, List.length_range]; exact hj
  rw [List.getElem_map, List.getElem_range]

theorem convertDates_cell {t : Table} {r' : List Value}
    (hr' : r' ∈ (convertDates t).rows) :
    ∃ r ∈ t.rows, r'.length = r.length ∧ ∀ j, j < r.length →
      r'.getD j .na =
        if (t.dateCols.map (fun c => t.cols.findIdx (· == c))).elem j
        then toDatetime (r.getD j .na) else r.getD j .na := by
  simp only [convertDates] at hr'
  rcases List.mem_map.mp hr' with ⟨r, hr, rfl⟩
  have hlen : (r.enum.map (fun p =>
      if (t.dateCols.map (fun c => t.cols.findIdx (· == c))).elem p.1
      then toDatetime p.2 else p.2)).length = r.length := by
    rw [List.length_map, List.enum_length]
  refine ⟨r, hr, hlen, ?_⟩
  intro j hj
  have h1 : j < (r.enum.map (fun p =>
      if (t.dateCols.map (fun c => t.cols.findIdx (· == c))).elem p.1
      then toDatetime p.2 else p.2)).length := by rw [hlen]; exact hj
  rw [List.getD_eq_getElem _ _ h1, List.getElem_map, List.getElem_enum,
    List.getD_eq_getElem r _ hj]

theorem setColF_cell_found {t : Table} {n : String} {f : List Value → Value}
    (hm : n ∈ t.cols) (hwf : t.WF) {r' : List Value}
    (hr' : r' ∈ (t.setColF n f).rows) :
    ∃ r ∈ t.rows, r'.length = r.length ∧
      r'.getD (t.cols.findIdx (· == n)) .na = f r ∧
      ∀ j, j ≠ t.cols.findIdx (· == n) → r'.getD j .na = r.getD j .na := by
  simp only [Table.setColF, if_pos hm] at hr'
  rcases List.mem_map.mp hr' with ⟨r, hr, rfl⟩
  have hlt : t.cols.findIdx (· == n) < r.length := by
    rw [hwf r hr]; exact findIdx_name_lt hm
  exact ⟨r, hr, List.length_set r _ _,
    getD_set_self r _ _ _ hlt, fun j hj => getD_set_ne r _ _ _ _ (fun hc => hj hc.symm)⟩

theorem setColF_cell_not_found {t : Table} {n : String} {f : List Value → Value}
    (hm : n ∉ t.cols) (hwf : t.WF) {r' : List Value}
    (hr' : r' ∈ (t.setColF n f).rows) :
    ∃ r ∈ t.rows, r'.length = r.length + 1 ∧
      r'.getD t.cols.length .na = f r ∧
      ∀ j, j ≠ t.cols.length → r'.getD j .na = r.getD j .na := by
  simp only [Table.setColF, if_neg hm] at hr'
  rcases List.mem_map.mp hr' with ⟨r, hr, rfl⟩
  have hlen : r.length = t.cols.length := hwf r hr
  refine ⟨r, hr, by simp, by rw [← hlen]; exact getD_append_self r _ _, ?_⟩
  intro j hj
  rcases Nat.lt_or_ge j t.cols.length with hlt | hge
  · exact getD_append_lt r _ j _ (by omega)
  · have hgt : r.length < j := by omega
    rw [List.getD_eq_default _ _ (by simp; omega), List.getD_eq_default _ _ (by omega)]

/-- A cell at an index whose column name is not the assigned name is
unchanged by `setColF`. -/
theorem setColF_cell_preserve {t : Table} (hwf : t.WF) {n : String} {f : List Value → Value}
    {j : Nat} (hj : j < t.cols.length) (hne : t.cols.getD j "" ≠ n)
    {r' : List Value} (hr' : r' ∈ (t.setColF n f).rows) :
    ∃ r ∈ t.rows, r'.getD j .na = r.getD j .na := by
  by_cases hm : n ∈ t.cols
  · rcases setColF_cell_found hm hwf hr' with ⟨r, hr, _, _, hother⟩
    refine ⟨r, hr, hother j ?_⟩
    intro hc
    exact hne (by rw [hc, getD_findIdx_name hm])
  · rcases setColF_cell_not_found hm hwf hr' with ⟨r, hr, _, _, hother⟩
    exact ⟨r, hr, hother j (by omega)⟩

theorem findIdx_name_append_of_not_mem {a : List String} {n : String} (h : n ∉ a)
    (rest : List String) : (a ++ n :: rest).findIdx (· == n) = a.length := by
  induction a with
  | nil => simp [List.findIdx_cons]
  | cons x xs ih =>
    have hx : (x == n) = false := by
      have : x ≠ n := fun hc => h (by rw [hc]; exact List.mem_cons_self _ _)
      simpa using this
    simp only [List.cons_append, List.findIdx_cons, hx, cond_false, List.length_cons]
    rw [ih (fun hc => h (List.mem_cons_of_mem _ hc))]

theorem setColF_name_mem (t : Table) (n : String) (f : List Value → Value) :
    n ∈ (t.setColF n f).cols := by
  by_cases hm : n ∈ t.cols
  · simpa [Table.setColF, if_pos hm] using hm
  · simp [Table.setColF, if_neg hm]

/-- After `df[n] = f(row)`, the cell of column `n` holds `f` of the old
row, and every other original column's cell is unchanged. -/
theorem setColF_cell_self {t : Table} (hwf : t.WF) (n : String) (f : List Value → Value) :
    ∀ r' ∈ (t.setColF n f).rows, ∃ r ∈ t.rows,
      (t.setColF n f).cell r' n = f r ∧
      (∀ m, m ∈ t.cols → m ≠ n → (t.setColF n f).cell r' m = t.cell r m) := by
  intro r' hr'
  by_cases hm : n ∈ t.cols
  · simp only [Table.setColF, if_pos hm] at hr'
    rcases List.mem_map.mp hr' with ⟨r, hr, rfl⟩
    have hlt : t.cols.findIdx (· == n) < r.length := by
      rw [hwf r hr]; exact findIdx_name_lt hm
    refine ⟨r, hr, ?_, ?_⟩
    · show (r.set (t.cols.findIdx (· == n)) (f r)).getD
        ((t.setColF n f).cols.findIdx (· == n)) .na = f r
      have hcols : (t.setColF n f).cols = t.cols := by simp [Table.setColF, if_pos hm]
      rw [hcols]
      exact getD_set_self r _ _ _ hlt
    · intro m hmm hmn
      show (r.set (t.cols.findIdx (· == n)) (f r)).getD
        ((t.setColF n f).cols.findIdx (· == m)) .na = t.cell r m
      have hcols : (t.setColF n f).cols = t.cols := by simp [Table.setColF, if_pos hm]
      rw [hcols]
      refine getD_set_ne r _ _ _ _ ?_
      intro hc
      have h1 : t.cols.getD (t.cols.findIdx (· == n)) "" = n := getD_findIdx_name hm
      have h2 : t.cols.getD (t.cols.findIdx (· == m)) "" = m := getD_findIdx_name hmm
      rw [hc, h2] at h1
      exact hmn h1
  · simp only [Table.setColF, if_neg hm] at hr'
    rcases List.mem_map.mp hr' with ⟨r, hr, rfl⟩
    have hlen : r.length = t.cols.length := hwf r hr
    refine ⟨r, hr, ?_, ?_⟩
    · show (r ++ [f r]).getD ((t.setColF n f).cols.findIdx (· == n)) .na = f r
      have hcols : (t.setColF n f).cols = t.cols ++ [n] := by simp [Table.setColF, if_neg hm]
      rw [hcols]
      have : (t.cols ++ [n]).findIdx (· == n) = t.cols.length :=
        findIdx_name_append_of_not_mem hm []
      rw [this, ← hlen]
      exact getD_append_self r _ _
    · intro m hmm hmn
      show (r ++ [f r]).getD ((t.setColF n f).cols.findIdx (· == m)) .na = t.cell r m
      have hcols : (t.setColF n f).cols = t.cols ++ [n] := by simp [Table.setColF, if_neg hm]
      rw [hcols, findIdx_append_lt _ _ _ (findIdx_name_lt hmm)]
      exact getD_append_lt r _ _ _ (by rw [hlen]; exact findIdx_name_lt hmm)

theorem colsExt_mem {P : String → Prop} {a b : List String}
    (h : ColsExt P a b) {m : String} (hm : m ∈ a) : m ∈ b := by
  rcases h with ⟨ns, rfl, _⟩
  exact List.mem_append_left _ hm

theorem filter_colsExt {P : String → Prop} {a b : List String} (h : ColsExt P a b)
    (p : String → Bool) (hp : ∀ n, P n → p n = false) :
    b.filter p = a.filter p := by
  rcases h with ⟨ns, rfl, hns⟩
  rw [List.filter_append]
  have : ns.filter p = [] := by
    rw [List.filter_eq_nil_iff]
    intro n hn
    rw [hp n (hns n hn)]
    exact Bool.noConfusion
  rw [this, List.append_nil]

theorem colsExt_getD {P : String → Prop} {a b : List String}
    (h : ColsExt P a b) {j : Nat} (hj : j < a.length) :
    b.getD j "" = a.getD j "" ∧ j < b.length := by
  rcases h with ⟨ns, rfl, _⟩
  exact ⟨getD_append_lt a ns j "" hj, by rw [List.length_append]; omega⟩

/-- A cell at an index whose column name is none of the time-feature
names is unchanged by `addTimeFeatures`. -/
theorem addTimeFeatures_cell_preserve {t : Table} (hwf : t.WF) {j : Nat}
    (hj : j < t.cols.length) (hder : ∀ n ∈ timeFeatureNames, t.cols.getD j "" ≠ n)
    {r' : List Value} (hr' : r' ∈ (addTimeFeatures t).rows) :
    ∃ r ∈ t.rows, r'.getD j .na = r.getD j .na := by
  rcases hh : t.dateCols.head? with _ | c
  · rw [addTimeFeatures, hh] at hr'
    exact ⟨r', hr', rfl⟩
  · rw [addTimeFeatures, hh] at hr'
    simp only at hr'
    set t1 := t.setColF "order_year"
      (fun r => yearV (r.getD (t.cols.findIdx (· == c)) .na)) with ht1
    set t2 := t1.setColF "order_month"
      (fun r => monthV (r.getD (t1.cols.findIdx (· == c)) .na)) with ht2
    set t3 := t2.setColF "order_day_of_week"
      (fun r => dowV (r.getD (t2.cols.findIdx (· == c)) .na)) with ht3
    have hw1 : t1.WF := setColF_wf _ _ hwf
    have hw2 : t2.WF := setColF_wf _ _ hw1
    have hw3 : t3.WF := setColF_wf _ _ hw2
    have he1 := colsExt_getD (setColF_colsExt t "order_year"
      (fun r => yearV (r.getD (t.cols.findIdx (· == c)) .na))) hj
    have he2 := colsExt_getD (setColF_colsExt t1 "order_month"
      (fun r => monthV (r.getD (t1.cols.findIdx (· == c)) .na))) he1.2
    have he3 := colsExt_getD (setColF_colsExt t2 "order_day_of_week"
      (fun r => dowV (r.getD (t2.cols.findIdx (· == c)) .na))) he2.2
    have hn1 : t.cols.getD j "" ≠ "order_year" := hder _ (by simp [timeFeatureNames])
    have hn2 : t1.cols.getD j "" ≠ "order_month" := by
      rw [he1.1]; exact hder _ (by simp [timeFeatureNames])
    have hn3 : t2.cols.getD j "" ≠ "order_day_of_week" := by
      rw [he2.1, he1.1]; exact hder _ (by simp [timeFeatureNames])
    have hn4 : t3.cols.getD j "" ≠ "order_day_name" := by
      rw [he3.1, he2.1, he1.1]; exact hder _ (by simp [timeFeatureNames])
    rcases setColF_cell_preserve hw3 he3.2 hn4 hr' with ⟨r3, hr3, hc3⟩
    rcases setColF_cell_preserve hw2 he2.2 hn3 hr3 with ⟨r2, hr2, hc2⟩
    rcases setColF_cell_preserve hw1 he1.2 hn2 hr2 with ⟨r1, hr1, hc1⟩
    rcases setColF_cell_preserve hwf hj hn1 hr1 with ⟨r, hr, hc0⟩
    exact ⟨r, hr, by rw [hc3, hc2, hc1, hc0]⟩

/-- A cell at an index whose column name is none of the flag names is
unchanged by `addFlags`. -/
theorem addFlags_cell_preserve {t : Table} (hwf : t.WF) {j : Nat}
    (hj : j < t.cols.length) (hder : ∀ n ∈ flagNames, t.cols.getD j "" ≠ n)
    {r' : List Value} (hr' : r' ∈ (addFlags t).rows) :
    ∃ r ∈ t.rows, r'.getD j .na = r.getD j .na := by
  rcases hh : t.statusCols.head? with _ | c
  · rw [addFlags, hh] at hr'
    exact ⟨r', hr', rfl⟩
  · rw [addFlags, hh] at hr'
    simp only at hr'
    set t1 := t.setColF "is_delivered"
      (fun r => boolInt (statusMatches deliveredKeys
        (r.getD (t.cols.findIdx (· == c)) .na))) with ht1
    set t2 := t1.setColF "is_late"
      (fun r => boolInt (statusMatches lateKeys
        (r.getD (t1.cols.findIdx (· == c)) .na))) with ht2
    have hw1 : t1.WF := setColF_wf _ _ hwf
    have hw2 : t2.WF := setColF_wf _ _ hw1
    have he1 := colsExt_getD (setColF_colsExt t "is_delivered"
      (fun r => boolInt (statusMatches deliveredKeys
        (r.getD (t.cols.findIdx (· == c)) .na)))) hj
    have he2 := colsExt_getD (setColF_colsExt t1 "is_late"
      (fun r => boolInt (statusMatches lateKeys
        (r.getD (t1.cols.findIdx (· == c)) .na)))) he1.2
    have hn1 : t.cols.getD j "" ≠ "is_delivered" := hder _ (by simp [flagNames])
    have hn2 : t1.cols.getD j "" ≠ "is_late" := by
      rw [he1.1]; exact hder _ (by simp [flagNames])
    have hn3 : t2.cols.getD j "" ≠ "is_on_time" := by
      rw [he2.1, he1.1]; exact hder _ (by simp [flagNames])
    rcases setColF_cell_preserve hw2 he2.2 hn3 hr' with ⟨r2, hr2, hc2⟩
    rcases setColF_cell_preserve hw1 he1.2 hn2 hr2 with ⟨r1, hr1, hc1⟩
    rcases setColF_cell_preserve hwf hj hn1 hr1 with ⟨r, hr, hc0⟩
    exact ⟨r, hr, by rw [hc2, hc1, hc0]⟩

/-! ## Facts about the derived column names (by computation) -/

theorem derived_not_id : ∀ n ∈ derivedNames, lowerHas n "id" = false := by decide

theorem derived_not_date : ∀ n ∈ derivedNames, lowerHas n "date" = false := by decide

theorem derived_not_status : ∀ n ∈ derivedNames, lowerHas n "status" = false := by decide

/-! ## The id-column invariant -/

/-- If the first identifier-like column is not also date-like, then no
cell of that column is missing after the pre-deduplication stages. -/
theorem preDedup_id_not_missing {t : Table} (hwf : t.WF) {c : String}
    (hc : t.idCols.head? = some c) (hcd : lowerHas c "date" = false) :
    ∀ r ∈ (preDedup t).rows,
      (r.getD (t.cols.findIdx (· == c)) .na).isNa = false := by
  have hcm : c ∈ t.cols.filter (fun x => lowerHas x "id") := List.mem_of_mem_head? hc
  have hcc : c ∈ t.cols := List.mem_of_mem_filter hcm
  have hcid : lowerHas c "id" = true := by
    have := (List.mem_filter.mp hcm).2
    simpa using this
  set j := t.cols.findIdx (· == c) with hjdef
  have hjlt : j < t.cols.length := findIdx_name_lt hcc
  have hname : t.cols.getD j "" = c := getD_findIdx_name hcc
  -- stage 1: the drop establishes the invariant
  have hd := dropIdNa_rows_of_some hc
  set t1 : Table := ⟨t.cols, t.rows.filter (fun r => !(r.getD j .na).isNa)⟩ with ht1
  have hw1 : t1.WF := by
    intro r hr
    exact hwf r (List.mem_of_mem_filter hr)
  have hstep1 : ∀ r ∈ t1.rows, (r.getD j .na).isNa = false := by
    intro r hr
    have := List.of_mem_filter hr
    simpa using this
  -- stage 2: fill preserves non-missing cells
  set t2 : Table := fillMissing t1 with ht2
  have hw2 : t2.WF := fillMissing_wf hw1
  have hstep2 : ∀ r ∈ t2.rows, (r.getD j .na).isNa = false := by
    intro r hr
    rcases fillMissing_cell hw1 hr with ⟨r0, hr0, _, hcell⟩
    have h0 := hstep1 r0 hr0
    rw [hcell j hjlt, h0]
    simpa using h0
  -- stage 3: the id column is not converted (it is not date-like)
  set t3 : Table := convertDates t2 with ht3
  have hw3 : t3.WF := convertDates_wf hw2
  have hnotdate : (t2.dateCols.map (fun d => t2.cols.findIdx (· == d))).elem j = false := by
    by_contra hne
    have helem : (t2.dateCols.map (fun d => t2.cols.findIdx (· == d))).elem j = true := by
      revert hne; cases (t2.dateCols.map (fun d => t2.cols.findIdx (· == d))).elem j <;> simp
    have hjm : j ∈ t2.dateCols.map (fun d => t2.cols.findIdx (· == d)) :=
      List.elem_iff.mp helem
    rcases List.mem_map.mp hjm with ⟨d, hdm, hdj⟩
    have hdm' : d ∈ t2.cols.filter (fun x => lowerHas x "date") := hdm
    have hdc : d ∈ t2.cols := List.mem_of_mem_filter hdm'
    have hdd : lowerHas d "date" = true := by
      have := (List.mem_filter.mp hdm').2
      simpa using this
    have ht2c : t2.cols = t.cols := rfl
    have : t.cols.getD j "" = d := by
      rw [← hdj, ← ht2c]
      exact getD_findIdx_name hdc
    rw [hname] at this
    rw [this] at hcd
    rw [hdd] at hcd
    exact Bool.noConfusion hcd
  have hstep3 : ∀ r ∈ t3.rows, (r.getD j .na).isNa = false := by
    intro r hr
    rcases convertDates_cell hr with ⟨r0, hr0, _, hcell⟩
    have hl0 : r0.length = t.cols.length := hw2 r0 hr0
    rw [hcell j (by omega), hnotdate]
    simp only [Bool.false_eq_true, if_false]
    exact hstep2 r0 hr0
  -- stages 4-5: the id column is not a derived name, so it is untouched
  have hder : ∀ n ∈ derivedNames, c ≠ n := by
    intro n hn he
    rw [he] at hcid
    rw [derived_not_id n hn] at hcid
    exact Bool.false_ne_true hcid
  have hpre : preDedup t = addFlags (addTimeFeatures t3) := by
    show addFlags (addTimeFeatures (convertDates (fillMissing (dropIdNa t)))) = _
    rw [hd]
  intro r hr
  rw [hpre] at hr
  have hj3 : j < t3.cols.length := hjlt
  have hname3 : t3.cols.getD j "" = c := hname
  rcases addFlags_cell_preserve (addTimeFeatures_wf hw3)
      (colsExt_getD (addTimeFeatures_colsExt t3) hj3).2
      (by
        intro n hn
        rw [(colsExt_getD (addTimeFeatures_colsExt t3) hj3).1, hname3]
        exact hder n (by simp [derivedNames]; right; simpa using hn)) hr
    with ⟨r4, hr4, hc4⟩
  rcases addTimeFeatures_cell_preserve hw3 hj3
      (by
        intro n hn
        rw [hname3]
        exact hder n (by simp [derivedNames]; left; simpa using hn)) hr4
    with ⟨r3, hr3, hc3⟩
  rw [hc4, hc3]
  exact hstep3 r3 hr3

/-! ## C4: the identifier-gap drop -/

/-- C4 as stated is false at its final clause: in this table the first
(and only) identifier-like column `valid_date` is also date-like, so
after the ISO-unparseable text `"X"` is coerced to a null timestamp the
output row has a missing value in the identifier-like column. -/
theorem id_column_missing_after_transform :
    (⟨["valid_date"], [[.str "X"]]⟩ : Table).idCols.head? = some "valid_date" ∧
    ∃ r ∈ (transform ⟨["valid_date"], [[.str "X"]]⟩).rows,
      (r.getD ((transform ⟨["valid_date"], [[.str "X"]]⟩).cols.findIdx
        (· == "valid_date")) .na).isNa = true := by
  decide

/-- C4 (amended): the drop step drops exactly the rows whose first
identifier-like column is missing (and nothing when no identifier-like
column exists), and — provided the first identifier-like column is not
also date-like — no row of the output has a missing value in that
column. -/
theorem id_gap_drop (t : Table) (hwf : t.WF) :
    (t.idCols = [] → dropIdNa t = t) ∧
    (∀ c, t.idCols.head? = some c →
      dropIdNa t =
        ⟨t.cols, t.rows.filter (fun r => !(r.getD (t.cols.findIdx (· == c)) .na).isNa)⟩) ∧
    (∀ c, t.idCols.head? = some c → lowerHas c "date" = false →
      ∀ r ∈ (transform t).rows,
        (r.getD ((transform t).cols.findIdx (· == c)) .na).isNa = false) := by
  refine ⟨?_, ?_, ?_⟩
  · intro h
    exact dropIdNa_rows_of_none (by rw [h]; rfl)
  · intro c hc
    exact dropIdNa_rows_of_some hc
  · intro c hc hcd r hr
    have hcc : c ∈ t.cols := List.mem_of_mem_filter (List.mem_of_mem_head? hc)
    have hidx : (transform t).cols.findIdx (· == c) = t.cols.findIdx (· == c) := by
      rcases transform_colsExt t with ⟨ns, hcols, _⟩
      rw [hcols]
      exact findIdx_append_lt _ _ _ (findIdx_name_lt hcc)
    rw [hidx]
    have hrm : r ∈ (preDedup t).rows := (keepFirst_mem _ _ _ hr).1
    exact preDedup_id_not_missing hwf hc hcd r hrm

/-- Witness for C4 at a concrete table whose id column is not date-like. -/
theorem id_gap_drop_witness :
    (([Value.str "A"] : List Value).getD
      ((transform ⟨["order_id"], [[.str "A"]]⟩).cols.findIdx (· == "order_id")) .na).isNa
      = false :=
  (id_gap_drop ⟨["order_id"], [[.str "A"]]⟩ (by decide)).2.2 "order_id"
    (by decide) (by decide) [Value.str "A"] (by decide)

/-! ## Median and fill-value facts -/

theorem insertSorted_length (q : Rat) (l : List Rat) :
    (insertSorted q l).length = l.length + 1 := by
  induction l with
  | nil => rfl
  | cons x xs ih => by_cases h : q ≤ x <;> simp [insertSorted, h, ih]

theorem sortRats_length (l : List Rat) : (sortRats l).length = l.length := by
  induction l with
  | nil => rfl
  | cons x xs ih =>
    show (insertSorted x (sortRats xs)).length = xs.length + 1
    rw [insertSorted_length, ih]

theorem median_eq_none_iff {l : List Rat} : median l = none ↔ l = [] := by
  rcases hl : l with _ | ⟨x, xs⟩
  · simp [median, sortRats]
  · have hlen : (sortRats (x :: xs)).length = xs.length + 1 := sortRats_length _
    constructor
    · intro h
      exfalso
      unfold median at h
      simp only [hlen, Nat.succ_ne_zero, if_false] at h
      by_cases hp : (xs.length + 1) % 2 = 1 <;> simp [hp] at h
    · intro h
      exact absurd h (List.cons_ne_nil _ _)

/-- A column whose fill value is still missing is an all-missing
numeric column (`fillna` with the `NaN` median of an empty list). -/
theorem fillValueFor_eq_na {vs : List Value} (h : fillValueFor vs = .na) :
    isNumericCol vs = true ∧ ∀ v ∈ vs, v.isNa = true := by
  unfold fillValueFor at h
  by_cases hn : isNumericCol vs
  · rw [if_pos hn] at h
    rcases hm : median (vs.filterMap Value.toNum) with _ | m
    · refine ⟨hn, ?_⟩
      have hnil : vs.filterMap Value.toNum = [] := median_eq_none_iff.mp hm
      intro v hv
      have hvn : v.isNa || v.isNum := by
        have := List.all_eq_true.mp hn v hv
        simpa using this
      have hnone : Value.toNum v = none := by
        rw [List.filterMap_eq_nil_iff] at hnil
        exact hnil v hv
      rcases v with _ | q | s | ts
      · rfl
      · exact absurd hnone (by simp [Value.toNum])
      · exact absurd hvn (by simp [Value.isNa, Value.isNum])
      · exact absurd hvn (by simp [Value.isNa, Value.isNum])
    · rw [hm] at h
      exact absurd h (by simp)
  · rw [if_neg hn] at h
    exact absurd h (by simp)

/-! ## Where a missing cell can come from, stage by stage -/

/-- After the fill, a missing cell sits in an all-missing numeric
column. -/
theorem fillMissing_na_src {t : Table} (hwf : t.WF) {r' : List Value}
    (hr' : r' ∈ (fillMissing t).rows) :
    ∃ r ∈ t.rows, ∀ j, j < t.cols.length → (r'.getD j .na).isNa = true →
      isNumericCol (t.col j) = true ∧ ∀ v ∈ t.col j, v.isNa = true := by
  rcases fillMissing_cell hwf hr' with ⟨r, hr, _, hcell⟩
  refine ⟨r, hr, ?_⟩
  intro j hj hna
  rw [hcell j hj] at hna
  rcases h0 : (r.getD j .na).isNa with _ | _
  · rw [h0] at hna
    simp only [Bool.false_eq_true, if_false] at hna
    rw [h0] at hna
    exact Bool.noConfusion hna
  · rw [h0] at hna
    simp only [if_true] at hna
    have hfv : fillValueFor (t.col j) = .na := by
      rcases hv : fillValueFor (t.col j) with _ | q | s | ts
      · rfl
      all_goals rw [hv] at hna; exact Bool.noConfusion hna
    exact fillValueFor_eq_na hfv

/-- Date conversion introduces missing cells only in date-like
columns. -/
theorem convertDates_na_src {t : Table} (hwf : t.WF) {r' : List Value}
    (hr' : r' ∈ (convertDates t).rows) :
    ∃ r ∈ t.rows, ∀ j, j < t.cols.length → (r'.getD j .na).isNa = true →
      lowerHas (t.cols.getD j "") "date" = true ∨ (r.getD j .na).isNa = true := by
  rcases convertDates_cell hr' with ⟨r, hr, _, hcell⟩
  refine ⟨r, hr, ?_⟩
  intro j hj hna
  have hlen : r.length = t.cols.length := hwf r hr
  rw [hcell j (by omega)] at hna
  rcases he : (t.dateCols.map (fun c => t.cols.findIdx (· == c))).elem j with _ | _
  · rw [he] at hna
    simp only [Bool.false_eq_true, if_false] at hna
    exact Or.inr hna
  · left
    have hjm : j ∈ t.dateCols.map (fun c => t.cols.findIdx (· == c)) := List.elem_iff.mp he
    rcases List.mem_map.mp hjm with ⟨d, hdm, hdj⟩
    have hdm' : d ∈ t.cols.filter (fun x => lowerHas x "date") := hdm
    have hdc : d ∈ t.cols := List.mem_of_mem_filter hdm'
    have hdd : lowerHas d "date" = true := by
      have := (List.mem_filter.mp hdm').2
      simpa using this
    rw [← hdj, getD_findIdx_name hdc]
    exact hdd

/-- A missing cell after `setColF` is either in the column just
assigned or was already missing. -/
theorem setColF_na_src {t : Table} (hwf : t.WF) {n : String} {f : List Value → Value}
    {r' : List Value} (hr' : r' ∈ (t.setColF n f).rows) :
    ∃ r ∈ t.rows, ∀ j, j < (t.setColF n f).cols.length → (r'.getD j .na).isNa = true →
      (t.setColF n f).cols.getD j "" = n ∨
      (j < t.cols.length ∧ (r.getD j .na).isNa = true) := by
  by_cases hm : n ∈ t.cols
  · have hcols : (t.setColF n f).cols = t.cols := by simp [Table.setColF, if_pos hm]
    simp only [Table.setColF, if_pos hm] at hr'
    rcases List.mem_map.mp hr' with ⟨r, hr, rfl⟩
    refine ⟨r, hr, ?_⟩
    intro j hj hna
    rw [hcols] at hj
    by_cases hje : j = t.cols.findIdx (· == n)
    · left
      rw [hcols, hje]
      exact getD_findIdx_name hm
    · right
      rw [getD_set_ne r _ _ _ _ (fun hc => hje hc.symm)] at hna
      exact ⟨hj, hna⟩
  · have hcols : (t.setColF n f).cols = t.cols ++ [n] := by simp [Table.setColF, if_neg hm]
    simp only [Table.setColF, if_neg hm] at hr'
    rcases List.mem_map.mp hr' with ⟨r, hr, rfl⟩
    have hlen : r.length = t.cols.length := hwf r hr
    refine ⟨r, hr, ?_⟩
    intro j hj hna
    rw [hcols, List.length_append, List.length_cons, List.length_nil] at hj
    by_cases hje : j = t.cols.length
    · left
      rw [hcols, hje]
      exact getD_append_self t.cols n ""
    · right
      have hjlt : j < t.cols.length := by omega
      rw [getD_append_lt r _ _ _ (by omega)] at hna
      exact ⟨hjlt, hna⟩

/-- Like `setColF_na_src`, for a per-row value that is never missing:
the assigned column contributes no missing cell. -/
theorem setColF_na_src_nonNa {t : Table} (hwf : t.WF) {n : String} {f : List Value → Value}
    (hf : ∀ r, (f r).isNa = false)
    {r' : List Value} (hr' : r' ∈ (t.setColF n f).rows) :
    ∃ r ∈ t.rows, ∀ j, j < (t.setColF n f).cols.length → (r'.getD j .na).isNa = true →
      j < t.cols.length ∧ (r.getD j .na).isNa = true := by
  by_cases hm : n ∈ t.cols
  · have hcols : (t.setColF n f).cols = t.cols := by simp [Table.setColF, if_pos hm]
    simp only [Table.setColF, if_pos hm] at hr'
    rcases List.mem_map.mp hr' with ⟨r, hr, rfl⟩
    refine ⟨r, hr, ?_⟩
    intro j hj hna
    rw [hcols] at hj
    by_cases hje : j = t.cols.findIdx (· == n)
    · exfalso
      have hlt : t.cols.findIdx (· == n) < r.length := by
        rw [hwf r hr]; exact findIdx_name_lt hm
      rw [hje, getD_set_self r _ _ _ hlt, hf r] at hna
      exact Bool.noConfusion hna
    · rw [getD_set_ne r _ _ _ _ (fun hc => hje hc.symm)] at hna
      exact ⟨hj, hna⟩
  · have hcols : (t.setColF n f).cols = t.cols ++ [n] := by simp [Table.setColF, if_neg hm]
    simp only [Table.setColF, if_neg hm] at hr'
    rcases List.mem_map.mp hr' with ⟨r, hr, rfl⟩
    have hlen : r.length = t.cols.length := hwf r hr
    refine ⟨r, hr, ?_⟩
    intro j hj hna
    rw [hcols, List.length_append, List.length_cons, List.length_nil] at hj
    by_cases hje : j = t.cols.length
    · exfalso
      rw [hje, ← hlen, getD_append_self r _ _, hf r] at hna
      exact Bool.noConfusion hna
    · have hjlt : j < t.cols.length := by omega
      rw [getD_append_lt r _ _ _ (by omega)] at hna
      exact ⟨hjlt, hna⟩

/-- A missing cell after the time-feature stage is in a time-feature
column or was already missing. -/
theorem addTimeFeatures_na_src {t : Table} (hwf : t.WF) {r' : List Value}
    (hr' : r' ∈ (addTimeFeatures t).rows) :
    ∃ r ∈ t.rows, ∀ j, j < (addTimeFeatures t).cols.length → (r'.getD j .na).isNa = true →
      ((addTimeFeatures t).cols.getD j "" ∈ timeFeatureNames) ∨
      (j < t.cols.length ∧ (r.getD j .na).isNa = true) := by
  rcases hh : t.dateCols.head? with _ | c
  · have hid : addTimeFeatures t = t := by rw [addTimeFeatures, hh]
    rw [hid] at hr' ⊢
    exact ⟨r', hr', fun j hj hna => Or.inr ⟨hj, hna⟩⟩
  · set t1 := t.setColF "order_year"
      (fun r => yearV (r.getD (t.cols.findIdx (· == c)) .na)) with ht1
    set t2 := t1.setColF "order_month"
      (fun r => monthV (r.getD (t1.cols.findIdx (· == c)) .na)) with ht2
    set t3 := t2.setColF "order_day_of_week"
      (fun r => dowV (r.getD (t2.cols.findIdx (· == c)) .na)) with ht3
    have hat : addTimeFeatures t = t3.setColF "order_day_name"
        (fun r => dayNameV (r.getD (t3.cols.findIdx (· == c)) .na)) := by
      rw [addTimeFeatures, hh]
    rw [hat] at hr' ⊢
    have hw1 : t1.WF := setColF_wf _ _ hwf
    have hw2 : t2.WF := setColF_wf _ _ hw1
    have hw3 : t3.WF := setColF_wf _ _ hw2
    have he2 : ColsExt (· = "order_month") t1.cols t2.cols := setColF_colsExt _ _ _
    have he3 : ColsExt (· = "order_day_of_week") t2.cols t3.cols := setColF_colsExt _ _ _
    have he4 : ColsExt (· = "order_day_name") t3.cols
        (t3.setColF "order_day_name"
          (fun r => dayNameV (r.getD (t3.cols.findIdx (· == c)) .na))).cols :=
      setColF_colsExt _ _ _
    rcases setColF_na_src hw3 hr' with ⟨r3, hr3, h4⟩
    rcases setColF_na_src hw2 hr3 with ⟨r2, hr2, h3⟩
    rcases setColF_na_src hw1 hr2 with ⟨r1, hr1, h2⟩
    rcases setColF_na_src hwf hr1 with ⟨r, hr, h1⟩
    refine ⟨r, hr, ?_⟩
    intro j hj hna
    rcases h4 j hj hna with hn4 | ⟨hj3, hna3⟩
    · exact Or.inl (by rw [hn4]; simp [timeFeatureNames])
    · rcases h3 j hj3 hna3 with hn3 | ⟨hj2, hna2⟩
      · refine Or.inl ?_
        rw [(colsExt_getD he4 hj3).1, hn3]
        simp [timeFeatureNames]
      · rcases h2 j hj2 hna2 with hn2 | ⟨hj1, hna1⟩
        · refine Or.inl ?_
          rw [(colsExt_getD he4 hj3).1, (colsExt_getD he3 hj2).1, hn2]
          simp [timeFeatureNames]
        · rcases h1 j hj1 hna1 with hn1 | ⟨hj0, hna0⟩
          · refine Or.inl ?_
            rw [(colsExt_getD he4 hj3).1, (colsExt_getD he3 hj2).1,
              (colsExt_getD he2 hj1).1, hn1]
            simp [timeFeatureNames]
          · exact Or.inr ⟨hj0, hna0⟩

/-- The flag stage introduces no missing cell at all. -/
theorem addFlags_na_src {t : Table} (hwf : t.WF) {r' : List Value}
    (hr' : r' ∈ (addFlags t).rows) :
    ∃ r ∈ t.rows, ∀ j, j < (addFlags t).cols.length → (r'.getD j .na).isNa = true →
      j < t.cols.length ∧ (r.getD j .na).isNa = true := by
  rcases hh : t.statusCols.head? with _ | c
  · have hid : addFlags t = t := by rw [addFlags, hh]
    rw [hid] at hr' ⊢
    exact ⟨r', hr', fun j hj hna => ⟨hj, hna⟩⟩
  · set t1 := t.setColF "is_delivered"
      (fun r => boolInt (statusMatches deliveredKeys
        (r.getD (t.cols.findIdx (· == c)) .na))) with ht1
    set t2 := t1.setColF "is_late"
      (fun r => boolInt (statusMatches lateKeys
        (r.getD (t1.cols.findIdx (· == c)) .na))) with ht2
    have haf : addFlags t = t2.setColF "is_on_time"
        (fun r => boolInt ((r.getD (t2.cols.findIdx (· == "is_delivered")) .na) == Value.num 1 &&
                           (r.getD (t2.cols.findIdx (· == "is_late")) .na) == Value.num 0)) := by
      rw [addFlags, hh]
    rw [haf] at hr' ⊢
    have hw1 : t1.WF := setColF_wf _ _ hwf
    have hw2 : t2.WF := setColF_wf _ _ hw1
    rcases setColF_na_src_nonNa hw2 (by intro r0; rfl) hr' with ⟨r2, hr2, h3⟩
    rcases setColF_na_src_nonNa hw1 (by intro r0; rfl) hr2 with ⟨r1, hr1, h2⟩
    rcases setColF_na_src_nonNa hwf (by intro r0; rfl) hr1 with ⟨r, hr, h1⟩
    refine ⟨r, hr, ?_⟩
    intro j hj hna
    rcases h3 j hj hna with ⟨hj2, hna2⟩
    rcases h2 j hj2 hna2 with ⟨hj1, hna1⟩
    exact h1 j hj1 hna1

/-! ## Small facts used by the idempotence analysis -/

theorem table_eq {a b : Table} (h1 : a.cols = b.cols) (h2 : a.rows = b.rows) : a = b := by
  cases a; cases b; cases h1; cases h2; rfl

theorem toDatetime_idem (v : Value) : toDatetime (toDatetime v) = toDatetime v := by
  rcases v with _ | q | s | ts
  · rfl
  · rfl
  · rcases hp : parseDate s with _ | ts2 <;> simp [toDatetime, hp]
  · rfl

theorem toDatetime_fix_shape {v : Value} (h : toDatetime v = v) :
    v = .na ∨ ∃ ts, v = .date ts := by
  rcases v with _ | q | s | ts
  · exact Or.inl rfl
  · exact absurd h (by simp [toDatetime])
  · exfalso
    rcases hp : parseDate s with _ | ts2 <;> simp [toDatetime, hp] at h
  · exact Or.inr ⟨ts, rfl⟩

theorem fillValueFor_allNa {vs : List Value} (h : ∀ v ∈ vs, v.isNa = true) :
    fillValueFor vs = .na := by
  have hn : isNumericCol vs = true := by
    rw [isNumericCol, List.all_eq_true]
    intro v hv
    rw [h v hv]
    rfl
  have hfm : vs.filterMap Value.toNum = [] := by
    rw [List.filterMap_eq_nil_iff]
    intro v hv
    rcases v with _ | q | s | ts
    · rfl
    · exact absurd (h _ hv) (by simp [Value.isNa])
    · rfl
    · rfl
  rw [fillValueFor, if_pos hn, hfm]
  rfl

theorem fillValueFor_unknown_of_date {vs : List Value}
    (hfix : ∀ v ∈ vs, toDatetime v = v) {v : Value} (hv : v ∈ vs) (hvna : v.isNa = false) :
    fillValueFor vs = .str "Unknown" := by
  rcases toDatetime_fix_shape (hfix v hv) with h | ⟨ts, rfl⟩
  · rw [h] at hvna
    exact absurd hvna (by simp [Value.isNa])
  · have hn : ¬ (isNumericCol vs = true) := by
      intro hc
      have := List.all_eq_true.mp hc _ hv
      simp [Value.isNa, Value.isNum] at this
    rw [fillValueFor, if_neg hn]

theorem getD_mem {α : Type} {l : List α} {j : Nat} (h : j < l.length) (d : α) :
    l.getD j d ∈ l := by
  rw [List.getD_eq_getElem l d h]
  exact List.getElem_mem h

theorem nodup_findIdx_eq {cols : List String} (hnd : cols.Nodup) {j : Nat}
    (hj : j < cols.length) : cols.findIdx (· == cols.getD j "") = j := by
  have hm : cols.getD j "" ∈ cols := getD_mem hj ""
  have hlt := findIdx_name_lt hm
  have heq : cols.getD (cols.findIdx (· == cols.getD j "")) "" = cols.getD j "" :=
    getD_findIdx_name hm
  have heq2 : cols[cols.findIdx (· == cols.getD j "")] = cols[j] := by
    rw [← List.getD_eq_getElem cols "" hlt, ← List.getD_eq_getElem cols "" hj]
    exact heq
  exact (List.Nodup.getElem_inj_iff hnd).mp heq2

/-! ## Row-level access through fill and date conversion -/

theorem fillRow_getD (t : Table) (r : List Value) (hlen : r.length = t.cols.length)
    {j : Nat} (hj : j < t.cols.length) :
    (List.zipWith (fun v f => if v.isNa then f else v) r
      ((List.range t.cols.length).map (fun i => fillValueFor (t.col i)))).getD j .na =
    if (r.getD j .na).isNa then fillValueFor (t.col j) else r.getD j .na := by
  have hzlen : (List.zipWith (fun v f => if v.isNa then f else v) r
      ((List.range t.cols.length).map (fun i => fillValueFor (t.col i)))).length =
      t.cols.length := by
    rw [List.length_zipWith, hlen, List.length_map, List.length_range]
    exact Nat.min_self _
  have h1 : j < (List.zipWith (fun v f => if v.isNa then f else v) r
      ((List.range t.cols.length).map (fun i => fillValueFor (t.col i)))).length := by
    rw [hzlen]; exact hj
  rw [List.getD_eq_getElem _ _ h1, List.getElem_zipWith,
    List.getD_eq_getElem r _ (by omega)]
  have h2 : j < ((List.range t.cols.length).map (fun i => fillValueFor (t.col i))).length := by
    rw [List.length_map, List.length_range]; exact hj
  rw [List.getElem_map, List.getElem_range]

theorem fillRow_length (t : Table) (r : List Value) (hlen : r.length = t.cols.length) :
    (List.zipWith (fun v f => if v.isNa then f else v) r
      ((List.range t.cols.length).map (fun i => fillValueFor (t.col i)))).length =
    t.cols.length := by
  rw [List.length_zipWith, hlen, List.length_map, List.length_range]
  exact Nat.min_self _

theorem convertRow_getD (t : Table) (r : List Value) {j : Nat} (hj : j < r.length) :
    ((r.enum.map (fun p =>
      if (t.dateCols.map (fun c => t.cols.findIdx (· == c))).elem p.1
      then toDatetime p.2 else p.2)).getD j .na) =
    if (t.dateCols.map (fun c => t.cols.findIdx (· == c))).elem j
    then toDatetime (r.getD j .na) else r.getD j .na := by
  have h1 : j < (r.enum.map (fun p =>
      if (t.dateCols.map (fun c => t.cols.findIdx (· == c))).elem p.1
      then toDatetime p.2 else p.2)).length := by
    rw [List.length_map, List.enum_length]; exact hj
  rw [List.getD_eq_getElem _ _ h1, List.getElem_map, List.getElem_enum,
    List.getD_eq_getElem r _ hj]

theorem convertRow_length (t : Table) (r : List Value) :
    (r.enum.map (fun p =>
      if (t.dateCols.map (fun c => t.cols.findIdx (· == c))).elem p.1
      then toDatetime p.2 else p.2)).length = r.length := by
  rw [List.length_map, List.enum_length]

/-! ## Cells of the overwrite-regime row functions -/

theorem timeRowF_getD (cols : List String) (c : String) (r : List Value)
    (hlen : r.length = cols.length)
    (h1 : "order_year" ∈ cols) (h2 : "order_month" ∈ cols)
    (h3 : "order_day_of_week" ∈ cols) (h4 : "order_day_name" ∈ cols) :
    ((timeRowF cols c r).getD (cols.findIdx (· == "order_year")) .na
        = yearV (r.getD (cols.findIdx (· == c)) .na)) ∧
    ((timeRowF cols c r).getD (cols.findIdx (· == "order_month")) .na
        = monthV (r.getD (cols.findIdx (· == c)) .na)) ∧
    ((timeRowF cols c r).getD (cols.findIdx (· == "order_day_of_week")) .na
        = dowV (r.getD (cols.findIdx (· == c)) .na)) ∧
    ((timeRowF cols c r).getD (cols.findIdx (· == "order_day_name")) .na
        = dayNameV (r.getD (cols.findIdx (· == c)) .na)) ∧
    (∀ j, j ≠ cols.findIdx (· == "order_year") → j ≠ cols.findIdx (· == "order_month") →
      j ≠ cols.findIdx (· == "order_day_of_week") → j ≠ cols.findIdx (· == "order_day_name") →
      (timeRowF cols c r).getD j .na = r.getD j .na) ∧
    (timeRowF cols c r).length = r.length := by
  set j1 := cols.findIdx (· == "order_year") with hj1def
  set j2 := cols.findIdx (· == "order_month") with hj2def
  set j3 := cols.findIdx (· == "order_day_of_week") with hj3def
  set j4 := cols.findIdx (· == "order_day_name") with hj4def
  have hb1 : j1 < r.length := by rw [hlen]; exact findIdx_name_lt h1
  have hb2 : j2 < r.length := by rw [hlen]; exact findIdx_name_lt h2
  have hb3 : j3 < r.length := by rw [hlen]; exact findIdx_name_lt h3
  have hb4 : j4 < r.length := by rw [hlen]; exact findIdx_name_lt h4
  have hd12 : j1 ≠ j2 := by
    intro he
    have hn1 := getD_findIdx_name h1
    rw [← hj1def, he, hj2def, getD_findIdx_name h2] at hn1
    exact absurd hn1 (by decide)
  have hd13 : j1 ≠ j3 := by
    intro he
    have hn1 := getD_findIdx_name h1
    rw [← hj1def, he, hj3def, getD_findIdx_name h3] at hn1
    exact absurd hn1 (by decide)
  have hd14 : j1 ≠ j4 := by
    intro he
    have hn1 := getD_findIdx_name h1
    rw [← hj1def, he, hj4def, getD_findIdx_name h4] at hn1
    exact absurd hn1 (by decide)
  have hd23 : j2 ≠ j3 := by
    intro he
    have hn1 := getD_findIdx_name h2
    rw [← hj2def, he, hj3def, getD_findIdx_name h3] at hn1
    exact absurd hn1 (by decide)
  have hd24 : j2 ≠ j4 := by
    intro he
    have hn1 := getD_findIdx_name h2
    rw [← hj2def, he, hj4def, getD_findIdx_name h4] at hn1
    exact absurd hn1 (by decide)
  have hd34 : j3 ≠ j4 := by
    intro he
    have hn1 := getD_findIdx_name h3
    rw [← hj3def, he, hj4def, getD_findIdx_name h4] at hn1
    exact absurd hn1 (by decide)
  simp only [timeRowF, ← hj1def, ← hj2def, ← hj3def, ← hj4def]
  set v := r.getD (cols.findIdx (· == c)) .na with hvdef
  refine ⟨?_, ?_, ?_, ?_, ?_, ?_⟩
  · rw [getD_set_ne _ _ _ _ _ (fun h => hd14 h.symm),
      getD_set_ne _ _ _ _ _ (fun h => hd13 h.symm),
      getD_set_ne _ _ _ _ _ (fun h => hd12 h.symm),
      getD_set_self _ _ _ _ hb1]
  · rw [getD_set_ne _ _ _ _ _ (fun h => hd24 h.symm),
      getD_set_ne _ _ _ _ _ (fun h => hd23 h.symm),
      getD_set_self _ _ _ _ (by rw [List.length_set]; exact hb2)]
  · rw [getD_set_ne _ _ _ _ _ (fun h => hd34 h.symm),
      getD_set_self _ _ _ _ (by rw [List.length_set, List.length_set]; exact hb3)]
  · rw [getD_set_self _ _ _ _
      (by rw [List.length_set, List.length_set, List.length_set]; exact hb4)]
  · intro j hn1 hn2 hn3 hn4
    rw [getD_set_ne _ _ _ _ _ (fun h => hn4 h.symm),
      getD_set_ne _ _ _ _ _ (fun h => hn3 h.symm),
      getD_set_ne _ _ _ _ _ (fun h => hn2 h.symm),
      getD_set_ne _ _ _ _ _ (fun h => hn1 h.symm)]
  · simp [List.length_set]

theorem flagRowF_getD (cols : List String) (c : String) (r : List Value)
    (hlen : r.length = cols.length)
    (h1 : "is_delivered" ∈ cols) (h2 : "is_late" ∈ cols) (h3 : "is_on_time" ∈ cols) :
    ((flagRowF cols c r).getD (cols.findIdx (· == "is_delivered")) .na
        = boolInt (statusMatches deliveredKeys (r.getD (cols.findIdx (· == c)) .na))) ∧
    ((flagRowF cols c r).getD (cols.findIdx (· == "is_late")) .na
        = boolInt (statusMatches lateKeys (r.getD (cols.findIdx (· == c)) .na))) ∧
    ((flagRowF cols c r).getD (cols.findIdx (· == "is_on_time")) .na
        = boolInt ((boolInt (statusMatches deliveredKeys (r.getD (cols.findIdx (· == c)) .na))
            == Value.num 1) &&
          (boolInt (statusMatches lateKeys (r.getD (cols.findIdx (· == c)) .na))
            == Value.num 0))) ∧
    (∀ j, j ≠ cols.findIdx (· == "is_delivered") → j ≠ cols.findIdx (· == "is_late") →
      j ≠ cols.findIdx (· == "is_on_time") →
      (flagRowF cols c r).getD j .na = r.getD j .na) ∧
    (flagRowF cols c r).length = r.length := by
  set j1 := cols.findIdx (· == "is_delivered") with hj1def
  set j2 := cols.findIdx (· == "is_late") with hj2def
  set j3 := cols.findIdx (· == "is_on_time") with hj3def
  have hb1 : j1 < r.length := by rw [hlen]; exact findIdx_name_lt h1
  have hb2 : j2 < r.length := by rw [hlen]; exact findIdx_name_lt h2
  have hb3 : j3 < r.length := by rw [hlen]; exact findIdx_name_lt h3
  have hd12 : j1 ≠ j2 := by
    intro he
    have hn1 := getD_findIdx_name h1
    rw [← hj1def, he, hj2def, getD_findIdx_name h2] at hn1
    exact absurd hn1 (by decide)
  have hd13 : j1 ≠ j3 := by
    intro he
    have hn1 := getD_findIdx_name h1
    rw [← hj1def, he, hj3def, getD_findIdx_name h3] at hn1
    exact absurd hn1 (by decide)
  have hd23 : j2 ≠ j3 := by
    intro he
    have hn1 := getD_findIdx_name h2
    rw [← hj2def, he, hj3def, getD_findIdx_name h3] at hn1
    exact absurd hn1 (by decide)
  simp only [flagRowF, ← hj1def, ← hj2def, ← hj3def]
  refine ⟨?_, ?_, ?_, ?_, ?_⟩
  · rw [getD_set_ne _ _ _ _ _ (fun h => hd13 h.symm),
      getD_set_ne _ _ _ _ _ (fun h => hd12 h.symm),
      getD_set_self _ _ _ _ hb1]
  · rw [getD_set_ne _ _ _ _ _ (fun h => hd23 h.symm),
      getD_set_self _ _ _ _ (by rw [List.length_set]; exact hb2)]
  · rw [getD_set_self _ _ _ _ (by rw [List.length_set, List.length_set]; exact hb3)]
  · intro j hn1 hn2 hn3
    rw [getD_set_ne _ _ _ _ _ (fun h => hn3 h.symm),
      getD_set_ne _ _ _ _ _ (fun h => hn2 h.symm),
      getD_set_ne _ _ _ _ _ (fun h => hn1 h.symm)]
  · simp [List.length_set]

theorem setColF_cols_of_mem {t : Table} {n : String} (h : n ∈ t.cols)
    (f : List Value → Value) : (t.setColF n f).cols = t.cols := by
  simp [Table.setColF, if_pos h]

theorem setColF_rows_of_mem {t : Table} {n : String} (h : n ∈ t.cols)
    (f : List Value → Value) :
    (t.setColF n f).rows = t.rows.map (fun r => r.set (t.cols.findIdx (· == n)) (f r)) := by
  simp [Table.setColF, if_pos h]

/-- Two column lookups with distinct names at their first indices give
distinct indices. -/
theorem findIdx_name_ne {cols : List String} {m n : String} (hm : m ∈ cols) (hn : n ∈ cols)
    (hmn : m ≠ n) : cols.findIdx (· == m) ≠ cols.findIdx (· == n) := by
  intro he
  have h1 := getD_findIdx_name hm
  rw [he, getD_findIdx_name hn] at h1
  exact hmn h1.symm

/-- When all three flag columns already exist, `addFlags` with status
column `c` keeps the column list and maps `flagRowF` over the rows. -/
theorem addFlags_rows_overwrite {x : Table} (hwf : x.WF) {c : String}
    (hc : x.statusCols.head? = some c)
    (hd : "is_delivered" ∈ x.cols) (hl : "is_late" ∈ x.cols) (ho : "is_on_time" ∈ x.cols) :
    addFlags x = ⟨x.cols, x.rows.map (flagRowF x.cols c)⟩ := by
  have hcm : c ∈ x.cols := List.mem_of_mem_filter (List.mem_of_mem_head? hc)
  have hcs : lowerHas c "status" = true := by
    have := (List.mem_filter.mp (show c ∈ x.cols.filter (fun s => lowerHas s "status") from
      List.mem_of_mem_head? hc)).2
    simpa using this
  have hcd : c ≠ "is_delivered" := by
    intro he
    rw [he] at hcs
    exact absurd hcs (by decide)
  have hcl : c ≠ "is_late" := by
    intro he
    rw [he] at hcs
    exact absurd hcs (by decide)
  rw [addFlags, hc]
  simp only
  set f1 := fun r : List Value => boolInt (statusMatches deliveredKeys
    (r.getD (x.cols.findIdx (· == c)) .na)) with hf1
  set t1 := x.setColF "is_delivered" f1 with ht1
  have hc1 : t1.cols = x.cols := setColF_cols_of_mem hd f1
  set f2 := fun r : List Value => boolInt (statusMatches lateKeys
    (r.getD (t1.cols.findIdx (· == c)) .na)) with hf2
  set t2 := t1.setColF "is_late" f2 with ht2
  have hc2 : t2.cols = x.cols := by
    rw [ht2, setColF_cols_of_mem (show "is_late" ∈ t1.cols from hc1 ▸ hl) f2, hc1]
  refine table_eq ?_ ?_
  · rw [setColF_cols_of_mem (show "is_on_time" ∈ t2.cols from hc2 ▸ ho) _, hc2]
  · rw [setColF_rows_of_mem (show "is_on_time" ∈ t2.cols from hc2 ▸ ho) _]
    have hr2 : t2.rows = t1.rows.map (fun r =>
        r.set (x.cols.findIdx (· == "is_late")) (f2 r)) := by
      rw [ht2, setColF_rows_of_mem (show "is_late" ∈ t1.cols from hc1 ▸ hl) f2, hc1]
    have hr1 : t1.rows = x.rows.map (fun r =>
        r.set (x.cols.findIdx (· == "is_delivered")) (f1 r)) := by
      rw [ht1, setColF_rows_of_mem hd f1]
    simp only [hc2, hc1, hf2, hf1] at *
    rw [hr2, hr1, List.map_map, List.map_map]
    refine List.map_congr_left ?_
    intro r hrm
    simp only [Function.comp]
    have hlen : r.length = x.cols.length := hwf r hrm
    have hjd : x.cols.findIdx (· == "is_delivered") < r.length := by
      rw [hlen]; exact findIdx_name_lt hd
    have hjl : x.cols.findIdx (· == "is_late") < r.length := by
      rw [hlen]; exact findIdx_name_lt hl
    have hdl := findIdx_name_ne hd hl (by decide)
    have hsd := findIdx_name_ne hcm hd hcd
    rw [getD_set_ne _ _ _ _ _ (Ne.symm hdl), getD_set_self _ _ _ _ hjd,
      getD_set_self _ _ _ _ (by rw [List.length_set]; exact hjl),
      getD_set_ne _ _ _ _ _ (Ne.symm hsd)]
    rfl

/-- When all four time-feature columns already exist, `addTimeFeatures`
with first date column `c` keeps the column list and maps `timeRowF`
over the rows. -/
theorem addTimeFeatures_rows_overwrite {x : Table} (hwf : x.WF) {c : String}
    (hc : x.dateCols.head? = some c)
    (h1 : "order_year" ∈ x.cols) (h2 : "order_month" ∈ x.cols)
    (h3 : "order_day_of_week" ∈ x.cols) (h4 : "order_day_name" ∈ x.cols) :
    addTimeFeatures x = ⟨x.cols, x.rows.map (timeRowF x.cols c)⟩ := by
  have hcm : c ∈ x.cols := List.mem_of_mem_filter (List.mem_of_mem_head? hc)
  have hcdt : lowerHas c "date" = true := by
    have := (List.mem_filter.mp (show c ∈ x.cols.filter (fun s => lowerHas s "date") from
      List.mem_of_mem_head? hc)).2
    simpa using this
  have hne1 : c ≠ "order_year" := by
    intro he; rw [he] at hcdt; exact absurd hcdt (by decide)
  have hne2 : c ≠ "order_month" := by
    intro he; rw [he] at hcdt; exact absurd hcdt (by decide)
  have hne3 : c ≠ "order_day_of_week" := by
    intro he; rw [he] at hcdt; exact absurd hcdt (by decide)
  rw [addTimeFeatures, hc]
  simp only
  set g1 := fun r : List Value => yearV (r.getD (x.cols.findIdx (· == c)) .na) with hg1
  set t1 := x.setColF "order_year" g1 with ht1
  have hc1 : t1.cols = x.cols := setColF_cols_of_mem h1 g1
  set g2 := fun r : List Value => monthV (r.getD (t1.cols.findIdx (· == c)) .na) with hg2
  set t2 := t1.setColF "order_month" g2 with ht2
  have hc2 : t2.cols = x.cols := by
    rw [ht2, setColF_cols_of_mem (show "order_month" ∈ t1.cols from hc1 ▸ h2) g2, hc1]
  set g3 := fun r : List Value => dowV (r.getD (t2.cols.findIdx (· == c)) .na) with hg3
  set t3 := t2.setColF "order_day_of_week" g3 with ht3
  have hc3 : t3.cols = x.cols := by
    rw [ht3, setColF_cols_of_mem (show "order_day_of_week" ∈ t2.cols from hc2 ▸ h3) g3, hc2]
  refine table_eq ?_ ?_
  · rw [setColF_cols_of_mem (show "order_day_name" ∈ t3.cols from hc3 ▸ h4) _, hc3]
  · rw [setColF_rows_of_mem (show "order_day_name" ∈ t3.cols from hc3 ▸ h4) _]
    have hr3 : t3.rows = t2.rows.map (fun r =>
        r.set (x.cols.findIdx (· == "order_day_of_week")) (g3 r)) := by
      rw [ht3, setColF_rows_of_mem (show "order_day_of_week" ∈ t2.cols from hc2 ▸ h3) g3, hc2]
    have hr2 : t2.rows = t1.rows.map (fun r =>
        r.set (x.cols.findIdx (· == "order_month")) (g2 r)) := by
      rw [ht2, setColF_rows_of_mem (show "order_month" ∈ t1.cols from hc1 ▸ h2) g2, hc1]
    have hr1 : t1.rows = x.rows.map (fun r =>
        r.set (x.cols.findIdx (· == "order_year")) (g1 r)) := by
      rw [ht1, setColF_rows_of_mem h1 g1]
    simp only [hc3, hc2, hc1, hg3, hg2, hg1] at *
    rw [hr3, hr2, hr1, List.map_map, List.map_map, List.map_map]
    refine List.map_congr_left ?_
    intro r hrm
    simp only [Function.comp]
    have hs1 := findIdx_name_ne hcm h1 hne1
    have hs2 := findIdx_name_ne hcm h2 hne2
    have hs3 := findIdx_name_ne hcm h3 hne3
    rw [getD_set_ne _ _ _ _ _ (fun h => hs1 h.symm)]
    rw [getD_set_ne _ _ _ _ _ (fun h => hs2 h.symm),
      getD_set_ne _ _ _ _ _ (fun h => hs1 h.symm)]
    rw [getD_set_ne _ _ _ _ _ (fun h => hs3 h.symm),
      getD_set_ne _ _ _ _ _ (fun h => hs2 h.symm),
      getD_set_ne _ _ _ _ _ (fun h => hs1 h.symm)]
    rfl

/-- After `addFlags` with first status-like column `c`, every output
row carries the three flags computed from the row's status cell, and
all original non-flag columns are unchanged. -/
theorem addFlags_cells {t : Table} (hwf : t.WF) {c : String}
    (hc : t.statusCols.head? = some c) :
    ∀ r' ∈ (addFlags t).rows, ∃ r ∈ t.rows,
      (addFlags t).cell r' "is_delivered" =
        boolInt (statusMatches deliveredKeys (t.cell r c)) ∧
      (addFlags t).cell r' "is_late" =
        boolInt (statusMatches lateKeys (t.cell r c)) ∧
      (addFlags t).cell r' "is_on_time" =
        boolInt (((addFlags t).cell r' "is_delivered") == Value.num 1 &&
                 ((addFlags t).cell r' "is_late") == Value.num 0) ∧
      (∀ m, m ∈ t.cols → m ≠ "is_delivered" → m ≠ "is_late" → m ≠ "is_on_time" →
        (addFlags t).cell r' m = t.cell r m) := by
  intro r' hr'
  rw [addFlags, hc] at hr'
  simp only at hr'
  set f1 : List Value → Value :=
    fun r => boolInt (statusMatches deliveredKeys
      (r.getD (t.cols.findIdx (· == c)) .na)) with hf1
  set t1 := t.setColF "is_delivered" f1 with ht1
  set f2 : List Value → Value :=
    fun r => boolInt (statusMatches lateKeys
      (r.getD (t1.cols.findIdx (· == c)) .na)) with hf2
  set t2 := t1.setColF "is_late" f2 with ht2
  set f3 : List Value → Value :=
    fun r => boolInt ((r.getD (t2.cols.findIdx (· == "is_delivered")) .na) == Value.num 1 &&
                      (r.getD (t2.cols.findIdx (· == "is_late")) .na) == Value.num 0) with hf3
  have hw1 : t1.WF := setColF_wf _ _ hwf
  have hw2 : t2.WF := setColF_wf _ _ hw1
  have he1 : ColsExt (· = "is_delivered") t.cols t1.cols := setColF_colsExt _ _ _
  have he2 : ColsExt (· = "is_late") t1.cols t2.cols := setColF_colsExt _ _ _
  rcases setColF_cell_self hw2 "is_on_time" f3 r' hr' with ⟨r2, hr2, hself3, hother3⟩
  rcases setColF_cell_self hw1 "is_late" f2 r2 hr2 with ⟨r1, hr1, hself2, hother2⟩
  rcases setColF_cell_self hwf "is_delivered" f1 r1 hr1 with ⟨r, hr, hself1, hother1⟩
  have hafl : addFlags t = t2.setColF "is_on_time" f3 := by
    rw [addFlags, hc]
  have hcm : c ∈ t.cols :=
    List.mem_of_mem_filter (List.mem_of_mem_head? hc)
  have hcst : lowerHas c "status" = true := by
    have := (List.mem_filter.mp
      (show c ∈ t.cols.filter (fun x => lowerHas x "status") from
        List.mem_of_mem_head? hc)).2
    simpa using this
  have hcne : ∀ n ∈ flagNames, c ≠ n := by
    intro n hn he
    have hns : lowerHas n "status" = false :=
      derived_not_status n (by simp [derivedNames]; right; simpa using hn)
    rw [he, hns] at hcst
    exact Bool.noConfusion hcst
  have hmem1 : "is_delivered" ∈ t1.cols := setColF_name_mem _ _ _
  have hmem2 : "is_delivered" ∈ t2.cols := colsExt_mem he2 hmem1
  have hmeml1 : "is_late" ∈ t2.cols := setColF_name_mem _ _ _
  -- value of is_delivered in the final table
  have hd2 : t2.cell r2 "is_delivered" = t1.cell r1 "is_delivered" :=
    hother2 "is_delivered" hmem1 (by decide)
  have hd3 : (addFlags t).cell r' "is_delivered" = t2.cell r2 "is_delivered" := by
    rw [hafl]
    exact hother3 "is_delivered" hmem2 (by decide)
  have hdval : (addFlags t).cell r' "is_delivered" =
      boolInt (statusMatches deliveredKeys (t.cell r c)) := by
    rw [hd3, hd2, hself1]
    rfl
  -- value of is_late in the final table
  have hl3 : (addFlags t).cell r' "is_late" = t2.cell r2 "is_late" := by
    rw [hafl]
    exact hother3 "is_late" hmeml1 (by decide)
  have hc1 : t1.cell r1 c = t.cell r c :=
    hother1 c hcm (hcne _ (by simp [flagNames]))
  have hlval : (addFlags t).cell r' "is_late" =
      boolInt (statusMatches lateKeys (t.cell r c)) := by
    rw [hl3, hself2, hf2, ← hc1]
    rfl
  -- value of is_on_time in the final table
  have hoval : (addFlags t).cell r' "is_on_time" =
      boolInt (((addFlags t).cell r' "is_delivered") == Value.num 1 &&
               ((addFlags t).cell r' "is_late") == Value.num 0) := by
    rw [hafl] at hd3 hl3 ⊢
    rw [hself3, hf3, hd3, hl3]
    rfl
  refine ⟨r, hr, hdval, hlval, hoval, ?_⟩
  intro m hmm hm1 hm2 hm3
  have hmm1 : m ∈ t1.cols := colsExt_mem he1 hmm
  have hmm2 : m ∈ t2.cols := colsExt_mem he2 hmm1
  rw [hafl]
  rw [hother3 m hmm2 hm3, hother2 m hmm1 hm2, hother1 m hmm hm1]

/-- After `addTimeFeatures` with first date-like column `c`, every
output row carries the four time features computed from the row's date
cell, and all original non-time-feature columns are unchanged. -/
theorem addTimeFeatures_cells {t : Table} (hwf : t.WF) {c : String}
    (hc : t.dateCols.head? = some c) :
    ∀ r' ∈ (addTimeFeatures t).rows, ∃ r ∈ t.rows,
      (addTimeFeatures t).cell r' "order_year" = yearV (t.cell r c) ∧
      (addTimeFeatures t).cell r' "order_month" = monthV (t.cell r c) ∧
      (addTimeFeatures t).cell r' "order_day_of_week" = dowV (t.cell r c) ∧
      (addTimeFeatures t).cell r' "order_day_name" = dayNameV (t.cell r c) ∧
      (∀ m, m ∈ t.cols → m ≠ "order_year" → m ≠ "order_month" →
        m ≠ "order_day_of_week" → m ≠ "order_day_name" →
        (addTimeFeatures t).cell r' m = t.cell r m) := by
  intro r' hr'
  rw [addTimeFeatures, hc] at hr'
  simp only at hr'
  set g1 : List Value → Value :=
    fun r => yearV (r.getD (t.cols.findIdx (· == c)) .na) with hg1
  set t1 := t.setColF "order_year" g1 with ht1
  set g2 : List Value → Value :=
    fun r => monthV (r.getD (t1.cols.findIdx (· == c)) .na) with hg2
  set t2 := t1.setColF "order_month" g2 with ht2
  set g3 : List Value → Value :=
    fun r => dowV (r.getD (t2.cols.findIdx (· == c)) .na) with hg3
  set t3 := t2.setColF "order_day_of_week" g3 with ht3
  set g4 : List Value → Value :=
    fun r => dayNameV (r.getD (t3.cols.findIdx (· == c)) .na) with hg4
  have hw1 : t1.WF := setColF_wf _ _ hwf
  have hw2 : t2.WF := setColF_wf _ _ hw1
  have hw3 : t3.WF := setColF_wf _ _ hw2
  have he1 : ColsExt (· = "order_year") t.cols t1.cols := setColF_colsExt _ _ _
  have he2 : ColsExt (· = "order_month") t1.cols t2.cols := setColF_colsExt _ _ _
  have he3 : ColsExt (· = "order_day_of_week") t2.cols t3.cols := setColF_colsExt _ _ _
  rcases setColF_cell_self hw3 "order_day_name" g4 r' hr' with ⟨r3, hr3, hself4, hother4⟩
  rcases setColF_cell_self hw2 "order_day_of_week" g3 r3 hr3 with ⟨r2, hr2, hself3, hother3⟩
  rcases setColF_cell_self hw1 "order_month" g2 r2 hr2 with ⟨r1, hr1, hself2, hother2⟩
  rcases setColF_cell_self hwf "order_year" g1 r1 hr1 with ⟨r, hr, hself1, hother1⟩
  have hat : addTimeFeatures t = t3.setColF "order_day_name" g4 := by
    rw [addTimeFeatures, hc]
  have hcm : c ∈ t.cols := List.mem_of_mem_filter (List.mem_of_mem_head? hc)
  have hcdt : lowerHas c "date" = true := by
    have := (List.mem_filter.mp (show c ∈ t.cols.filter (fun s => lowerHas s "date") from
      List.mem_of_mem_head? hc)).2
    simpa using this
  have hcne : ∀ n ∈ timeFeatureNames, c ≠ n := by
    intro n hn he
    have hns : lowerHas n "date" = false :=
      derived_not_date n (by simp [derivedNames]; left; simpa using hn)
    rw [he, hns] at hcdt
    exact Bool.noConfusion hcdt
  have hmy1 : "order_year" ∈ t1.cols := setColF_name_mem _ _ _
  have hmy2 : "order_year" ∈ t2.cols := colsExt_mem he2 hmy1
  have hmy3 : "order_year" ∈ t3.cols := colsExt_mem he3 hmy2
  have hmm2 : "order_month" ∈ t2.cols := setColF_name_mem _ _ _
  have hmm3 : "order_month" ∈ t3.cols := colsExt_mem he3 hmm2
  have hmd3 : "order_day_of_week" ∈ t3.cols := setColF_name_mem _ _ _
  have hc1 : t1.cell r1 c = t.cell r c :=
    hother1 c hcm (hcne _ (by simp [timeFeatureNames]))
  have hc2 : t2.cell r2 c = t1.cell r1 c :=
    hother2 c (colsExt_mem he1 hcm) (hcne _ (by simp [timeFeatureNames]))
  have hc3 : t3.cell r3 c = t2.cell r2 c :=
    hother3 c (colsExt_mem he2 (colsExt_mem he1 hcm)) (hcne _ (by simp [timeFeatureNames]))
  -- index stability for the date column
  have hi1 : t1.cols.findIdx (· == c) = t.cols.findIdx (· == c) := by
    rcases he1 with ⟨ns, hns, _⟩
    rw [hns]
    exact findIdx_append_lt _ _ _ (findIdx_name_lt hcm)
  have hi2 : t2.cols.findIdx (· == c) = t1.cols.findIdx (· == c) := by
    rcases he2 with ⟨ns, hns, _⟩
    rw [hns]
    exact findIdx_append_lt _ _ _ (findIdx_name_lt (colsExt_mem he1 hcm))
  have hi3 : t3.cols.findIdx (· == c) = t2.cols.findIdx (· == c) := by
    rcases he3 with ⟨ns, hns, _⟩
    rw [hns]
    exact findIdx_append_lt _ _ _ (findIdx_name_lt (colsExt_mem he2 (colsExt_mem he1 hcm)))
  have hcc2 : t2.cell r2 c = t.cell r c := hc2.trans hc1
  have hcc3 : t3.cell r3 c = t.cell r c := hc3.trans hcc2
  refine ⟨r, hr, ?_, ?_, ?_, ?_, ?_⟩
  · have hyv : t1.cell r1 "order_year" = g1 r := hself1
    have hy2 : t2.cell r2 "order_year" = t1.cell r1 "order_year" :=
      hother2 "order_year" hmy1 (by decide)
    have hy3 : t3.cell r3 "order_year" = t2.cell r2 "order_year" :=
      hother3 "order_year" hmy2 (by decide)
    have hy4 : (addTimeFeatures t).cell r' "order_year" = t3.cell r3 "order_year" := by
      rw [hat]
      exact hother4 "order_year" hmy3 (by decide)
    rw [hy4, hy3, hy2, hyv]
    rfl
  · have hmv : t2.cell r2 "order_month" = g2 r1 := hself2
    have hm3 : t3.cell r3 "order_month" = t2.cell r2 "order_month" :=
      hother3 "order_month" hmm2 (by decide)
    have hm4 : (addTimeFeatures t).cell r' "order_month" = t3.cell r3 "order_month" := by
      rw [hat]
      exact hother4 "order_month" hmm3 (by decide)
    rw [hm4, hm3, hmv, hg2]
    show monthV (r1.getD (t1.cols.findIdx (· == c)) .na) = monthV (t.cell r c)
    have hc1u : r1.getD (t1.cols.findIdx (· == c)) .na = t.cell r c := hc1
    rw [hc1u]
  · have hdv : t3.cell r3 "order_day_of_week" = g3 r2 := hself3
    have hd4 : (addTimeFeatures t).cell r' "order_day_of_week" =
        t3.cell r3 "order_day_of_week" := by
      rw [hat]
      exact hother4 "order_day_of_week" hmd3 (by decide)
    rw [hd4, hdv, hg3]
    show dowV (r2.getD (t2.cols.findIdx (· == c)) .na) = dowV (t.cell r c)
    have hc2u : r2.getD (t2.cols.findIdx (· == c)) .na = t.cell r c := hcc2
    rw [hc2u]
  · have hnv : (addTimeFeatures t).cell r' "order_day_name" = g4 r3 := by
      rw [hat]
      exact hself4
    rw [hnv, hg4]
    show dayNameV (r3.getD (t3.cols.findIdx (· == c)) .na) = dayNameV (t.cell r c)
    have hc3u : r3.getD (t3.cols.findIdx (· == c)) .na = t.cell r c := hcc3
    rw [hc3u]
  · intro m hmm hm1 hm2 hm3 hm4
    have hmem1 : m ∈ t1.cols := colsExt_mem he1 hmm
    have hmem2 : m ∈ t2.cols := colsExt_mem he2 hmem1
    have hmem3 : m ∈ t3.cols := colsExt_mem he3 hmem2
    rw [hat]
    rw [hother4 m hmem3 hm4, hother3 m hmem2 hm3, hother2 m hmem1 hm2, hother1 m hmm hm1]

theorem statusCols_stage4 (t : Table) :
    (addTimeFeatures (convertDates (fillMissing (dropIdNa t)))).statusCols = t.statusCols := by
  have h3 : (convertDates (fillMissing (dropIdNa t))).cols = t.cols := by
    rw [convertDates_cols, fillMissing_cols, dropIdNa_cols]
  have he : ColsExt (· ∈ timeFeatureNames) t.cols
      (addTimeFeatures (convertDates (fillMissing (dropIdNa t)))).cols := by
    have h := addTimeFeatures_colsExt (convertDates (fillMissing (dropIdNa t)))
    rw [h3] at h
    exact h
  show (addTimeFeatures _).cols.filter _ = t.cols.filter _
  exact filter_colsExt he _
    (fun n hn => derived_not_status n (by simp [derivedNames]; left; simpa using hn))

theorem time_not_flag : ∀ n ∈ timeFeatureNames, n ∉ flagNames := by decide

theorem flag_not_time : ∀ n ∈ flagNames, n ∉ timeFeatureNames := by decide

theorem dateCols_stage3 (t : Table) :
    (convertDates (fillMissing (dropIdNa t))).dateCols = t.dateCols := by
  show (convertDates (fillMissing (dropIdNa t))).cols.filter _ = t.dateCols
  rw [convertDates_cols, fillMissing_cols, dropIdNa_cols]
  rfl

theorem setColF_nodup {t : Table} (h : t.cols.Nodup) (n : String) (f : List Value → Value) :
    (t.setColF n f).cols.Nodup := by
  by_cases hm : n ∈ t.cols
  · rw [setColF_cols_of_mem hm]
    exact h
  · have hcl : (t.setColF n f).cols = t.cols ++ [n] := by simp [Table.setColF, if_neg hm]
    rw [hcl, List.nodup_append]
    refine ⟨h, List.nodup_singleton n, ?_⟩
    intro a ha hb
    rw [List.mem_singleton] at hb
    rw [hb] at ha
    exact hm ha

theorem addTimeFeatures_nodup {t : Table} (h : t.cols.Nodup) :
    (addTimeFeatures t).cols.Nodup := by
  rcases hh : t.dateCols.head? with _ | c
  · have hid : addTimeFeatures t = t := by rw [addTimeFeatures, hh]
    rw [hid]
    exact h
  · rw [addTimeFeatures, hh]
    simp only
    exact setColF_nodup (setColF_nodup (setColF_nodup (setColF_nodup h _ _) _ _) _ _) _ _

theorem addFlags_nodup {t : Table} (h : t.cols.Nodup) : (addFlags t).cols.Nodup := by
  rcases hh : t.statusCols.head? with _ | c
  · have hid : addFlags t = t := by rw [addFlags, hh]
    rw [hid]
    exact h
  · rw [addFlags, hh]
    simp only
    exact setColF_nodup (setColF_nodup (setColF_nodup h _ _) _ _) _ _

theorem transform_cols_nodup {t : Table} (h : t.cols.Nodup) : (transform t).cols.Nodup := by
  show (addFlags (addTimeFeatures (convertDates (fillMissing (dropIdNa t))))).cols.Nodup
  refine addFlags_nodup (addTimeFeatures_nodup ?_)
  rw [convertDates_cols, fillMissing_cols, dropIdNa_cols]
  exact h

theorem transform_idCols (t : Table) : (transform t).idCols = t.idCols := by
  show (transform t).cols.filter _ = t.cols.filter _
  exact filter_colsExt (transform_colsExt t) _ (fun n hn => derived_not_id n hn)

theorem transform_dateCols (t : Table) : (transform t).dateCols = t.dateCols := by
  show (transform t).cols.filter _ = t.cols.filter _
  exact filter_colsExt (transform_colsExt t) _ (fun n hn => derived_not_date n hn)

theorem transform_statusCols (t : Table) : (transform t).statusCols = t.statusCols := by
  show (transform t).cols.filter _ = t.cols.filter _
  exact filter_colsExt (transform_colsExt t) _ (fun n hn => derived_not_status n hn)

theorem timeNames_mem_addTimeFeatures {x : Table} {c : String}
    (hc : x.dateCols.head? = some c) :
    ∀ n ∈ timeFeatureNames, n ∈ (addTimeFeatures x).cols := by
  rw [addTimeFeatures, hc]
  simp only
  intro n hn
  simp only [timeFeatureNames, List.mem_cons, List.not_mem_nil, or_false] at hn
  rcases hn with rfl | rfl | rfl | rfl
  · exact colsExt_mem (setColF_colsExt _ _ _)
      (colsExt_mem (setColF_colsExt _ _ _)
        (colsExt_mem (setColF_colsExt _ _ _) (setColF_name_mem _ _ _)))
  · exact colsExt_mem (setColF_colsExt _ _ _)
      (colsExt_mem (setColF_colsExt _ _ _) (setColF_name_mem _ _ _))
  · exact colsExt_mem (setColF_colsExt _ _ _) (setColF_name_mem _ _ _)
  · exact setColF_name_mem _ _ _

theorem flagNames_mem_addFlags {x : Table} {c : String}
    (hc : x.statusCols.head? = some c) :
    ∀ n ∈ flagNames, n ∈ (addFlags x).cols := by
  rw [addFlags, hc]
  simp only
  intro n hn
  simp only [flagNames, List.mem_cons, List.not_mem_nil, or_false] at hn
  rcases hn with rfl | rfl | rfl
  · exact colsExt_mem (setColF_colsExt _ _ _)
      (colsExt_mem (setColF_colsExt _ _ _) (setColF_name_mem _ _ _))
  · exact colsExt_mem (setColF_colsExt _ _ _) (setColF_name_mem _ _ _)
  · exact setColF_name_mem _ _ _

theorem transform_cols_precise (t : Table) :
    ∃ ns, (transform t).cols = t.cols ++ ns ∧
      (∀ n ∈ ns, n ∈ derivedNames) ∧
      (t.dateCols = [] → ∀ n ∈ ns, n ∉ timeFeatureNames) ∧
      (t.statusCols = [] → ∀ n ∈ ns, n ∉ flagNames) := by
  have h3 : (convertDates (fillMissing (dropIdNa t))).cols = t.cols := by
    rw [convertDates_cols, fillMissing_cols, dropIdNa_cols]
  rcases addTimeFeatures_colsExt (convertDates (fillMissing (dropIdNa t))) with ⟨ns1, h4, hns1⟩
  rcases addFlags_colsExt (addTimeFeatures (convertDates (fillMissing (dropIdNa t))))
    with ⟨ns2, h5, hns2⟩
  refine ⟨ns1 ++ ns2, ?_, ?_, ?_, ?_⟩
  · show (addFlags (addTimeFeatures (convertDates (fillMissing (dropIdNa t))))).cols = _
    rw [h5, h4, h3, List.append_assoc]
  · intro n hn
    rcases List.mem_append.mp hn with h | h
    · exact List.mem_append_left _ (hns1 n h)
    · exact List.mem_append_right _ (hns2 n h)
  · intro hdc n hn hcontra
    have hnone : (convertDates (fillMissing (dropIdNa t))).dateCols.head? = none := by
      rw [dateCols_stage3, hdc]
      rfl
    have hid : addTimeFeatures (convertDates (fillMissing (dropIdNa t))) =
        convertDates (fillMissing (dropIdNa t)) := by
      rw [addTimeFeatures, hnone]
    have hns1nil : ns1 = [] := by
      have h4' := h4
      rw [hid] at h4'
      have hl := congrArg List.length h4'
      rw [List.length_append] at hl
      have : ns1.length = 0 := by omega
      exact List.length_eq_zero.mp this
    rw [hns1nil, List.nil_append] at hn
    exact time_not_flag n hcontra (hns2 n hn)
  · intro hsc n hn hcontra
    have hnone : (addTimeFeatures (convertDates (fillMissing (dropIdNa t)))).statusCols.head? =
        none := by
      rw [statusCols_stage4, hsc]
      rfl
    have hid : addFlags (addTimeFeatures (convertDates (fillMissing (dropIdNa t)))) =
        addTimeFeatures (convertDates (fillMissing (dropIdNa t))) := by
      rw [addFlags, hnone]
    have hns2nil : ns2 = [] := by
      have h5' := h5
      rw [hid] at h5'
      have hl := congrArg List.length h5'
      rw [List.length_append] at hl
      have : ns2.length = 0 := by omega
      exact List.length_eq_zero.mp this
    rw [hns2nil, List.append_nil] at hn
    exact flag_not_time n hcontra (hns1 n hn)

theorem boolInt_eq_one {b : Bool} (h : boolInt b = .num 1) : b = true := by
  cases b
  · exfalso
    rw [boolInt] at h
    simp at h
  · rfl

/-- The flag cells of every transformed row are the keyword flags of
that row's own status cell. -/
theorem transform_flag_invariant (t : Table) (hwf : t.WF) {c : String}
    (hc : t.statusCols.head? = some c) :
    ∀ r ∈ (transform t).rows,
      ((transform t).cell r "is_delivered" =
        boolInt (statusMatches deliveredKeys ((transform t).cell r c))) ∧
      ((transform t).cell r "is_late" =
        boolInt (statusMatches lateKeys ((transform t).cell r c))) ∧
      ((transform t).cell r "is_on_time" =
        boolInt (((transform t).cell r "is_delivered") == Value.num 1 &&
                 ((transform t).cell r "is_late") == Value.num 0)) := by
  intro r hr
  have hw4 : (addTimeFeatures (convertDates (fillMissing (dropIdNa t)))).WF :=
    addTimeFeatures_wf (convertDates_wf (fillMissing_wf (dropIdNa_wf hwf)))
  have hst : (addTimeFeatures (convertDates (fillMissing (dropIdNa t)))).statusCols.head? =
      some c := by
    rw [statusCols_stage4]; exact hc
  have hrm : r ∈ (addFlags (addTimeFeatures (convertDates (fillMissing (dropIdNa t))))).rows :=
    (keepFirst_mem _ _ _ hr).1
  rcases addFlags_cells hw4 hst r hrm with ⟨r4, hr4, hdv, hlv, hov, hpres⟩
  have hcm4 : c ∈ (addTimeFeatures (convertDates (fillMissing (dropIdNa t)))).cols :=
    List.mem_of_mem_filter (List.mem_of_mem_head? hst)
  have hcst : lowerHas c "status" = true := by
    have := (List.mem_filter.mp
      (show c ∈ t.cols.filter (fun x => lowerHas x "status") from
        List.mem_of_mem_head? hc)).2
    simpa using this
  have hcne : ∀ n ∈ flagNames, c ≠ n := by
    intro n hn he
    have hns : lowerHas n "status" = false :=
      derived_not_status n (by simp [derivedNames]; right; simpa using hn)
    rw [he, hns] at hcst
    exact Bool.noConfusion hcst
  have hstatus : (addFlags (addTimeFeatures (convertDates (fillMissing (dropIdNa t))))).cell r c =
      (addTimeFeatures (convertDates (fillMissing (dropIdNa t)))).cell r4 c :=
    hpres c hcm4 (hcne _ (by simp [flagNames])) (hcne _ (by simp [flagNames]))
      (hcne _ (by simp [flagNames]))
  have hgoal1 : (transform t).cell r "is_delivered" =
      boolInt (statusMatches deliveredKeys ((transform t).cell r c)) := by
    show (addFlags _).cell r "is_delivered" =
      boolInt (statusMatches deliveredKeys ((addFlags _).cell r c))
    rw [hstatus]
    exact hdv
  have hgoal2 : (transform t).cell r "is_late" =
      boolInt (statusMatches lateKeys ((transform t).cell r c)) := by
    show (addFlags _).cell r "is_late" =
      boolInt (statusMatches lateKeys ((addFlags _).cell r c))
    rw [hstatus]
    exact hlv
  have hgoal3 : (transform t).cell r "is_on_time" =
      boolInt (((transform t).cell r "is_delivered") == Value.num 1 &&
               ((transform t).cell r "is_late") == Value.num 0) := hov
  exact ⟨hgoal1, hgoal2, hgoal3⟩

/-- C3: if a status-like column exists then, in every output row,
`is_delivered` is 1 iff the lower-cased status text contains a
delivered-set keyword (else 0), `is_late` likewise for the late set,
`is_on_time` is 1 iff `is_delivered` = 1 and `is_late` = 0, and hence
`is_on_time` = 1 implies `is_delivered` = 1 and `is_late` = 0. -/
theorem status_flag_semantics (t : Table) (hwf : t.WF) (c : String)
    (hc : t.statusCols.head? = some c) :
    ∀ r ∈ (transform t).rows,
      ((transform t).cell r "is_delivered" =
        boolInt (statusMatches deliveredKeys ((transform t).cell r c))) ∧
      ((transform t).cell r "is_late" =
        boolInt (statusMatches lateKeys ((transform t).cell r c))) ∧
      ((transform t).cell r "is_on_time" =
        boolInt (((transform t).cell r "is_delivered") == Value.num 1 &&
                 ((transform t).cell r "is_late") == Value.num 0)) ∧
      ((transform t).cell r "is_on_time" = Value.num 1 →
        (transform t).cell r "is_delivered" = Value.num 1 ∧
        (transform t).cell r "is_late" = Value.num 0) := by
  intro r hr
  rcases transform_flag_invariant t hwf hc r hr with ⟨h1, h2, h3⟩
  refine ⟨h1, h2, h3, ?_⟩
  intro hone
  rw [h3] at hone
  have hb := boolInt_eq_one hone
  rcases (Bool.and_eq_true _ _).mp hb with ⟨ha, hb2⟩
  exact ⟨eq_of_beq ha, eq_of_beq hb2⟩

/-- Witness for C3 at a concrete table with a delivered status. -/
theorem status_flag_semantics_witness :
    (transform ⟨["Status"], [[.str "Delivered"]]⟩).cell
      [.str "Delivered", .num 1, .num 0, .num 1] "is_delivered" =
      boolInt (statusMatches deliveredKeys
        ((transform ⟨["Status"], [[.str "Delivered"]]⟩).cell
          [.str "Delivered", .num 1, .num 0, .num 1] "Status")) :=
  (status_flag_semantics ⟨["Status"], [[.str "Delivered"]]⟩ (by decide) "Status" (by decide)
    [.str "Delivered", .num 1, .num 0, .num 1] (by decide)).1

/-- The time-feature cells of every transformed row are the calendar
features of that row's own (first) date cell. -/
theorem transform_time_invariant (t : Table) (hwf : t.WF) {c : String}
    (hc : t.dateCols.head? = some c) :
    ∀ r ∈ (transform t).rows,
      ((transform t).cell r "order_year" = yearV ((transform t).cell r c)) ∧
      ((transform t).cell r "order_month" = monthV ((transform t).cell r c)) ∧
      ((transform t).cell r "order_day_of_week" = dowV ((transform t).cell r c)) ∧
      ((transform t).cell r "order_day_name" = dayNameV ((transform t).cell r c)) := by
  intro r hr
  have hw3 : (convertDates (fillMissing (dropIdNa t))).WF :=
    convertDates_wf (fillMissing_wf (dropIdNa_wf hwf))
  have hw4 : (addTimeFeatures (convertDates (fillMissing (dropIdNa t)))).WF :=
    addTimeFeatures_wf hw3
  have hc3 : (convertDates (fillMissing (dropIdNa t))).dateCols.head? = some c := by
    rw [dateCols_stage3]
    exact hc
  have hrm : r ∈ (addFlags (addTimeFeatures (convertDates (fillMissing (dropIdNa t))))).rows :=
    (keepFirst_mem _ _ _ hr).1
  have hcm3 : c ∈ (convertDates (fillMissing (dropIdNa t))).cols :=
    List.mem_of_mem_filter (List.mem_of_mem_head? hc3)
  have hcdt : lowerHas c "date" = true := by
    have := (List.mem_filter.mp
      (show c ∈ t.cols.filter (fun x => lowerHas x "date") from
        List.mem_of_mem_head? hc)).2
    simpa using this
  have hcnet : ∀ n ∈ timeFeatureNames, c ≠ n := by
    intro n hn he
    have hns : lowerHas n "date" = false :=
      derived_not_date n (by simp [derivedNames]; left; simpa using hn)
    rw [he, hns] at hcdt
    exact Bool.noConfusion hcdt
  have hcnef : ∀ n ∈ flagNames, c ≠ n := by
    intro n hn he
    have hns : lowerHas n "date" = false :=
      derived_not_date n (by simp [derivedNames]; right; simpa using hn)
    rw [he, hns] at hcdt
    exact Bool.noConfusion hcdt
  have htm : ∀ n ∈ timeFeatureNames,
      n ∈ (addTimeFeatures (convertDates (fillMissing (dropIdNa t)))).cols :=
    timeNames_mem_addTimeFeatures hc3
  have hcm4 : c ∈ (addTimeFeatures (convertDates (fillMissing (dropIdNa t)))).cols :=
    colsExt_mem (addTimeFeatures_colsExt _) hcm3
  rcases hsc : (addTimeFeatures (convertDates (fillMissing (dropIdNa t)))).statusCols.head?
    with _ | cs
  · have hid : addFlags (addTimeFeatures (convertDates (fillMissing (dropIdNa t)))) =
        addTimeFeatures (convertDates (fillMissing (dropIdNa t))) := by
      rw [addFlags, hsc]
    rw [hid] at hrm
    rcases addTimeFeatures_cells hw3 hc3 r hrm with ⟨r3, hr3, hy, hm, hd, hn, hpres⟩
    have hcell : ∀ (row : List Value) (n : String),
        (transform t).cell row n =
          (addTimeFeatures (convertDates (fillMissing (dropIdNa t)))).cell row n := by
      intro row n
      show (addFlags _).cell row n = _
      rw [hid]
    have hcc : (transform t).cell r c =
        (convertDates (fillMissing (dropIdNa t))).cell r3 c := by
      rw [hcell]
      exact hpres c hcm3 (hcnet _ (by simp [timeFeatureNames]))
        (hcnet _ (by simp [timeFeatureNames])) (hcnet _ (by simp [timeFeatureNames]))
        (hcnet _ (by simp [timeFeatureNames]))
    exact ⟨by rw [hcell, hcc]; exact hy, by rw [hcell, hcc]; exact hm,
      by rw [hcell, hcc]; exact hd, by rw [hcell, hcc]; exact hn⟩
  · rcases addFlags_cells hw4 hsc r hrm with ⟨r4, hr4, _, _, _, hpresF⟩
    rcases addTimeFeatures_cells hw3 hc3 r4 hr4 with ⟨r3, hr3, hy, hm, hd, hn, hpresT⟩
    have hty : (transform t).cell r "order_year" =
        (addTimeFeatures (convertDates (fillMissing (dropIdNa t)))).cell r4 "order_year" :=
      hpresF _ (htm _ (by simp [timeFeatureNames])) (by decide) (by decide) (by decide)
    have htmn : (transform t).cell r "order_month" =
        (addTimeFeatures (convertDates (fillMissing (dropIdNa t)))).cell r4 "order_month" :=
      hpresF _ (htm _ (by simp [timeFeatureNames])) (by decide) (by decide) (by decide)
    have htd : (transform t).cell r "order_day_of_week" =
        (addTimeFeatures (convertDates (fillMissing (dropIdNa t)))).cell r4 "order_day_of_week" :=
      hpresF _ (htm _ (by simp [timeFeatureNames])) (by decide) (by decide) (by decide)
    have htn : (transform t).cell r "order_day_name" =
        (addTimeFeatures (convertDates (fillMissing (dropIdNa t)))).cell r4 "order_day_name" :=
      hpresF _ (htm _ (by simp [timeFeatureNames])) (by decide) (by decide) (by decide)
    have hcc : (transform t).cell r c =
        (convertDates (fillMissing (dropIdNa t))).cell r3 c := by
      have h1 : (transform t).cell r c =
          (addTimeFeatures (convertDates (fillMissing (dropIdNa t)))).cell r4 c :=
        hpresF c hcm4 (hcnef _ (by simp [flagNames])) (hcnef _ (by simp [flagNames]))
          (hcnef _ (by simp [flagNames]))
      rw [h1]
      exact hpresT c hcm3 (hcnet _ (by simp [timeFeatureNames]))
        (hcnet _ (by simp [timeFeatureNames])) (hcnet _ (by simp [timeFeatureNames]))
        (hcnet _ (by simp [timeFeatureNames]))
    exact ⟨by rw [hty, hcc]; exact hy, by rw [htmn, hcc]; exact hm,
      by rw [htd, hcc]; exact hd, by rw [htn, hcc]; exact hn⟩

/-- Every date-like column's cells in the transformed table are
fixpoints of `toDatetime` (parsed timestamps or nulls). -/
theorem transform_date_fixpoint (t : Table) (hwf : t.WF) {d : String}
    (hd : d ∈ t.dateCols) :
    ∀ r ∈ (transform t).rows,
      toDatetime ((transform t).cell r d) = (transform t).cell r d := by
  intro r hr
  have hdm' : d ∈ t.cols.filter (fun x => lowerHas x "date") := hd
  have hdc : d ∈ t.cols := List.mem_of_mem_filter hdm'
  have hdd : lowerHas d "date" = true := by
    have := (List.mem_filter.mp hdm').2
    simpa using this
  set j := t.cols.findIdx (· == d) with hjdef
  have hjlt : j < t.cols.length := findIdx_name_lt hdc
  have hname : t.cols.getD j "" = d := getD_findIdx_name hdc
  have hw1 : (dropIdNa t).WF := dropIdNa_wf hwf
  have hw2 : (fillMissing (dropIdNa t)).WF := fillMissing_wf hw1
  have hw3 : (convertDates (fillMissing (dropIdNa t))).WF := convertDates_wf hw2
  have hidx : (transform t).cols.findIdx (· == d) = j := by
    rcases transform_colsExt t with ⟨ns, hcols, _⟩
    show (transform t).cols.findIdx (· == d) = _
    rw [hcols]
    exact findIdx_append_lt _ _ _ hjlt
  have hdnt : ∀ n ∈ timeFeatureNames, t.cols.getD j "" ≠ n := by
    intro n hn he
    have hns : lowerHas n "date" = false :=
      derived_not_date n (by simp [derivedNames]; left; simpa using hn)
    rw [hname] at he
    rw [he, hns] at hdd
    exact Bool.noConfusion hdd
  have hdnf : ∀ n ∈ flagNames, t.cols.getD j "" ≠ n := by
    intro n hn he
    have hns : lowerHas n "date" = false :=
      derived_not_date n (by simp [derivedNames]; right; simpa using hn)
    rw [hname] at he
    rw [he, hns] at hdd
    exact Bool.noConfusion hdd
  have hrm : r ∈ (addFlags (addTimeFeatures (convertDates (fillMissing (dropIdNa t))))).rows :=
    (keepFirst_mem _ _ _ hr).1
  have hc3cols : (convertDates (fillMissing (dropIdNa t))).cols = t.cols := by
    rw [convertDates_cols, fillMissing_cols, dropIdNa_cols]
  have hj3 : j < (convertDates (fillMissing (dropIdNa t))).cols.length := by
    rw [hc3cols]
    exact hjlt
  have hj4 : j < (addTimeFeatures (convertDates (fillMissing (dropIdNa t)))).cols.length :=
    (colsExt_getD (addTimeFeatures_colsExt _) hj3).2
  have hname4 : (addTimeFeatures (convertDates (fillMissing (dropIdNa t)))).cols.getD j "" =
      t.cols.getD j "" := by
    rw [(colsExt_getD (addTimeFeatures_colsExt _) hj3).1, hc3cols]
  rcases addFlags_cell_preserve (addTimeFeatures_wf hw3) hj4
      (by intro n hn; rw [hname4]; exact hdnf n hn) hrm with ⟨r4, hr4, he4⟩
  rcases addTimeFeatures_cell_preserve hw3 hj3
      (by intro n hn; rw [hc3cols]; exact hdnt n hn) hr4 with ⟨r3, hr3, he3⟩
  rcases convertDates_cell hr3 with ⟨r2, hr2, _, hcell⟩
  have hl2 : r2.length = t.cols.length := by
    have := hw2 r2 hr2
    rw [fillMissing_cols, dropIdNa_cols] at this
    exact this
  have ht2c : (fillMissing (dropIdNa t)).cols = t.cols := by
    rw [fillMissing_cols, dropIdNa_cols]
  have ht2d : (fillMissing (dropIdNa t)).dateCols = t.dateCols := by
    show (fillMissing (dropIdNa t)).cols.filter _ = t.dateCols
    rw [ht2c]
    rfl
  have helem : ((fillMissing (dropIdNa t)).dateCols.map
      (fun c => (fillMissing (dropIdNa t)).cols.findIdx (· == c))).elem j = true := by
    apply List.elem_iff.mpr
    apply List.mem_map.mpr
    refine ⟨d, ?_, ?_⟩
    · rw [ht2d]
      exact hd
    · rw [ht2c]
  have hcv : r3.getD j .na = toDatetime (r2.getD j .na) := by
    rw [hcell j (by omega), helem]
    simp only [if_true]
  show toDatetime ((transform t).cell r d) = (transform t).cell r d
  rw [Table.cell, hidx, he4, he3, hcv, toDatetime_idem]

/-- In a column that is not date-like, not an active time-feature
column, and not an active flag column, a missing cell in one output row
forces the whole column to be missing (it came from an all-missing
numeric column whose median fill is itself `NaN`). -/
theorem transform_generic_all_na (t : Table) (hwf : t.WF) {j : Nat} (hj : j < t.cols.length)
    (hgnd : lowerHas (t.cols.getD j "") "date" = false)
    (hgnt : ¬(t.cols.getD j "" ∈ timeFeatureNames ∧ t.dateCols ≠ []))
    (hgnf : ¬(t.cols.getD j "" ∈ flagNames ∧ t.statusCols ≠ []))
    {r0 : List Value} (hr0 : r0 ∈ (transform t).rows) (hna : (r0.getD j .na).isNa = true) :
    ∀ r ∈ (transform t).rows, (r.getD j .na).isNa = true := by
  have hw1 : (dropIdNa t).WF := dropIdNa_wf hwf
  have hw2 : (fillMissing (dropIdNa t)).WF := fillMissing_wf hw1
  have hw3 : (convertDates (fillMissing (dropIdNa t))).WF := convertDates_wf hw2
  have hw4 : (addTimeFeatures (convertDates (fillMissing (dropIdNa t)))).WF :=
    addTimeFeatures_wf hw3
  have hc2cols : (fillMissing (dropIdNa t)).cols = t.cols := by
    rw [fillMissing_cols, dropIdNa_cols]
  have hc3cols : (convertDates (fillMissing (dropIdNa t))).cols = t.cols := by
    rw [convertDates_cols, fillMissing_cols, dropIdNa_cols]
  have hj3 : j < (convertDates (fillMissing (dropIdNa t))).cols.length := by
    rw [hc3cols]
    exact hj
  have hj4 : j < (addTimeFeatures (convertDates (fillMissing (dropIdNa t)))).cols.length :=
    (colsExt_getD (addTimeFeatures_colsExt _) hj3).2
  have hname4 : (addTimeFeatures (convertDates (fillMissing (dropIdNa t)))).cols.getD j "" =
      t.cols.getD j "" := by
    rw [(colsExt_getD (addTimeFeatures_colsExt _) hj3).1, hc3cols]
  have hback : ∀ r ∈ (addFlags (addTimeFeatures (convertDates (fillMissing (dropIdNa t))))).rows,
      ∃ r3 ∈ (convertDates (fillMissing (dropIdNa t))).rows,
        r.getD j .na = r3.getD j .na := by
    intro r hrm
    have hstep4 : ∃ r4 ∈ (addTimeFeatures (convertDates (fillMissing (dropIdNa t)))).rows,
        r.getD j .na = r4.getD j .na := by
      rcases hsc : (addTimeFeatures (convertDates
          (fillMissing (dropIdNa t)))).statusCols.head? with _ | cs
      · have hid : addFlags (addTimeFeatures (convertDates (fillMissing (dropIdNa t)))) =
            addTimeFeatures (convertDates (fillMissing (dropIdNa t))) := by
          rw [addFlags, hsc]
        rw [hid] at hrm
        exact ⟨r, hrm, rfl⟩
      · have hsne : t.statusCols ≠ [] := by
          intro hnil
          rw [statusCols_stage4, hnil] at hsc
          exact Option.noConfusion hsc
        refine addFlags_cell_preserve hw4 hj4 ?_ hrm
        intro n hn he
        rw [hname4] at he
        exact hgnf ⟨he ▸ hn, hsne⟩
    rcases hstep4 with ⟨r4, hr4, e4⟩
    rcases hdc : t.dateCols with _ | ⟨cd, rest⟩
    · have hnone : (convertDates (fillMissing (dropIdNa t))).dateCols.head? = none := by
        rw [dateCols_stage3, hdc]
        rfl
      have hid : addTimeFeatures (convertDates (fillMissing (dropIdNa t))) =
          convertDates (fillMissing (dropIdNa t)) := by
        rw [addTimeFeatures, hnone]
      rw [hid] at hr4
      exact ⟨r4, hr4, e4⟩
    · have hdne : t.dateCols ≠ [] := by rw [hdc]; exact List.cons_ne_nil _ _
      rcases addTimeFeatures_cell_preserve hw3 hj3
          (by
            intro n hn he
            rw [hc3cols] at he
            exact hgnt ⟨he ▸ hn, hdne⟩) hr4 with ⟨r3, hr3, e3⟩
      exact ⟨r3, hr3, e4.trans e3⟩
  have hnelem : ((fillMissing (dropIdNa t)).dateCols.map
      (fun c => (fillMissing (dropIdNa t)).cols.findIdx (· == c))).elem j = false := by
    by_contra hne
    have helem : ((fillMissing (dropIdNa t)).dateCols.map
        (fun c => (fillMissing (dropIdNa t)).cols.findIdx (· == c))).elem j = true := by
      revert hne
      cases ((fillMissing (dropIdNa t)).dateCols.map
        (fun c => (fillMissing (dropIdNa t)).cols.findIdx (· == c))).elem j <;> simp
    have hjm := List.elem_iff.mp helem
    rcases List.mem_map.mp hjm with ⟨d, hdm, hdj⟩
    have hdm' : d ∈ (fillMissing (dropIdNa t)).cols.filter (fun x => lowerHas x "date") := hdm
    have hdcm : d ∈ (fillMissing (dropIdNa t)).cols := List.mem_of_mem_filter hdm'
    have hdd : lowerHas d "date" = true := by
      have := (List.mem_filter.mp hdm').2
      simpa using this
    have hthis : (fillMissing (dropIdNa t)).cols.getD j "" = d := by
      rw [← hdj]
      exact getD_findIdx_name hdcm
    rw [hc2cols] at hthis
    rw [hthis, hdd] at hgnd
    exact Bool.noConfusion hgnd
  have hconv : ∀ r3 ∈ (convertDates (fillMissing (dropIdNa t))).rows,
      ∃ r2 ∈ (fillMissing (dropIdNa t)).rows, r3.getD j .na = r2.getD j .na := by
    intro r3 hr3
    rcases convertDates_cell hr3 with ⟨r2, hr2, _, hcell⟩
    have hl2 : r2.length = t.cols.length := by
      have := hw2 r2 hr2
      rw [hc2cols] at this
      exact this
    refine ⟨r2, hr2, ?_⟩
    rw [hcell j (by omega), hnelem]
    simp only [Bool.false_eq_true, if_false]
  have hj1 : j < (dropIdNa t).cols.length := by
    rw [dropIdNa_cols]
    exact hj
  have hall : ∀ v ∈ (dropIdNa t).col j, v.isNa = true := by
    rcases hback r0 (keepFirst_mem _ _ _ hr0).1 with ⟨r3, hr3, e3⟩
    rcases hconv r3 hr3 with ⟨r2, hr2, e2⟩
    have hna2 : (r2.getD j .na).isNa = true := by
      rw [← e2, ← e3]
      exact hna
    rcases fillMissing_na_src hw1 hr2 with ⟨r1, hr1, h2⟩
    exact (h2 j hj1 hna2).2
  intro r hr
  rcases hback r (keepFirst_mem _ _ _ hr).1 with ⟨r3, hr3, e3⟩
  rcases hconv r3 hr3 with ⟨r2, hr2, e2⟩
  rcases fillMissing_cell hw1 hr2 with ⟨r1, hr1, _, hcell⟩
  have hr1na : (r1.getD j .na).isNa = true := by
    refine hall _ ?_
    exact List.mem_map_of_mem _ hr1
  rw [e3, e2, hcell j hj1, hr1na]
  simp only [if_true]
  rw [fillValueFor_allNa hall]
  rfl

/-- When the first identifier-like column is not also date-like, the
identifier-gap drop is a fixpoint on the output of `transform`: no
output row is missing there, so the filter keeps every row. -/
theorem dropIdNa_transform_fix (t : Table) (hwf : t.WF)
    (hid : ∀ c, t.idCols.head? = some c → lowerHas c "date" = false) :
    dropIdNa (transform t) = transform t := by
  rcases hh : (transform t).idCols.head? with _ | c
  · exact dropIdNa_rows_of_none hh
  · have hh' : t.idCols.head? = some c := by
      rw [← transform_idCols]
      exact hh
    have hcd : lowerHas c "date" = false := hid c hh'
    rw [dropIdNa_rows_of_some hh]
    refine table_eq rfl ?_
    show (transform t).rows.filter _ = (transform t).rows
    apply List.filter_eq_self.mpr
    intro r hr
    have hrp : r ∈ (preDedup t).rows := (keepFirst_mem _ _ _ hr).1
    have hcm : c ∈ t.cols := List.mem_of_mem_filter (List.mem_of_mem_head? hh')
    rcases transform_cols_precise t with ⟨ns, hcols, _, _, _⟩
    have hidx : (transform t).cols.findIdx (· == c) = t.cols.findIdx (· == c) := by
      rw [hcols]
      exact findIdx_append_lt _ _ _ (findIdx_name_lt hcm)
    rw [hidx]
    have hnm := preDedup_id_not_missing hwf hh' hcd r hrp
    rw [hnm]
    rfl

/-! ## Helpers for the idempotence argument -/

theorem timeName_not_date : ∀ n ∈ timeFeatureNames, lowerHas n "date" = false := by decide

theorem flagName_not_date : ∀ n ∈ flagNames, lowerHas n "date" = false := by decide

theorem timeName_not_status : ∀ n ∈ timeFeatureNames, lowerHas n "status" = false := by decide

theorem flagName_not_status : ∀ n ∈ flagNames, lowerHas n "status" = false := by decide

theorem value_na_of_isNa {v : Value} (h : v.isNa = true) : v = .na := by
  rcases v with _ | q | s | ts
  · rfl
  all_goals exact absurd h (by simp [Value.isNa])

theorem list_eq_of_getD {l1 l2 : List Value} (hlen : l1.length = l2.length)
    (h : ∀ j, j < l1.length → l1.getD j .na = l2.getD j .na) : l1 = l2 := by
  apply List.ext_getElem hlen
  intro i h1 h2
  have hh := h i h1
  rwa [List.getD_eq_getElem _ _ h1, List.getD_eq_getElem _ _ h2] at hh

theorem findIdx_ne_of_getD_ne {cols : List String} {j : Nat} {n : String}
    (hn : n ∈ cols) (hne : cols.getD j "" ≠ n) : j ≠ cols.findIdx (· == n) := by
  intro he
  exact hne (by rw [he]; exact getD_findIdx_name hn)

/-- `flagRowF` leaves positions alone whose column name is not one of
the three flag names. -/
theorem flagRowF_preserve_name {cols : List String} {j : Nat}
    (hnf : cols.getD j "" ∉ flagNames) (c : String) (r : List Value)
    (hlen : r.length = cols.length)
    (h1 : "is_delivered" ∈ cols) (h2 : "is_late" ∈ cols) (h3 : "is_on_time" ∈ cols) :
    (flagRowF cols c r).getD j .na = r.getD j .na := by
  refine (flagRowF_getD cols c r hlen h1 h2 h3).2.2.2.1 j
    (findIdx_ne_of_getD_ne h1 ?_) (findIdx_ne_of_getD_ne h2 ?_)
    (findIdx_ne_of_getD_ne h3 ?_) <;>
  · intro he
    apply hnf
    rw [he]
    decide

/-- `timeRowF` leaves positions alone whose column name is not one of
the four time-feature names. -/
theorem timeRowF_preserve_name {cols : List String} {j : Nat}
    (hnt : cols.getD j "" ∉ timeFeatureNames) (c : String) (r : List Value)
    (hlen : r.length = cols.length)
    (h1 : "order_year" ∈ cols) (h2 : "order_month" ∈ cols)
    (h3 : "order_day_of_week" ∈ cols) (h4 : "order_day_name" ∈ cols) :
    (timeRowF cols c r).getD j .na = r.getD j .na := by
  refine (timeRowF_getD cols c r hlen h1 h2 h3 h4).2.2.2.2.1 j
    (findIdx_ne_of_getD_ne h1 ?_) (findIdx_ne_of_getD_ne h2 ?_)
    (findIdx_ne_of_getD_ne h3 ?_) (findIdx_ne_of_getD_ne h4 ?_) <;>
  · intro he
    apply hnt
    rw [he]
    decide

/-- After one `transform` pass, a second fill-and-convert restores
every cell in a column that is not an active time-feature or flag
target: a date-like cell is either already populated (and a fixpoint of
the conversion) or stays null through the `"Unknown"` fill and its
re-coercion; a generic cell is either populated (fill skips it) or sits
in an all-missing numeric column whose median fill is `NaN`. -/
theorem transform_fillconvert_restore (t : Table) (hwf : t.WF) (hnd : t.cols.Nodup)
    {r : List Value} (hr : r ∈ (transform t).rows) {j : Nat}
    (hj : j < (transform t).cols.length)
    (hgnt : ¬((transform t).cols.getD j "" ∈ timeFeatureNames ∧ t.dateCols ≠ []))
    (hgnf : ¬((transform t).cols.getD j "" ∈ flagNames ∧ t.statusCols ≠ [])) :
    (convRowU (transform t) (fillRowU (transform t) r)).getD j .na = r.getD j .na := by
  have huwf : (transform t).WF := transform_wf hwf
  have hlenr : r.length = (transform t).cols.length := huwf r hr
  have hlenF : (fillRowU (transform t) r).length = (transform t).cols.length :=
    fillRow_length (transform t) r hlenr
  have hjF : j < (fillRowU (transform t) r).length := by rw [hlenF]; exact hj
  have hC : (convRowU (transform t) (fillRowU (transform t) r)).getD j .na =
      if ((transform t).dateCols.map
          (fun c => (transform t).cols.findIdx (· == c))).elem j
      then toDatetime ((fillRowU (transform t) r).getD j .na)
      else (fillRowU (transform t) r).getD j .na :=
    convertRow_getD (transform t) (fillRowU (transform t) r) hjF
  have hF : (fillRowU (transform t) r).getD j .na =
      if (r.getD j .na).isNa then fillValueFor ((transform t).col j) else r.getD j .na :=
    fillRow_getD (transform t) r hlenr hj
  by_cases hdl : lowerHas ((transform t).cols.getD j "") "date" = true
  · -- a date-like column: fixpoint of the conversion
    have hund : (transform t).cols.Nodup := transform_cols_nodup hnd
    have hnmem : (transform t).cols.getD j "" ∈ (transform t).cols := getD_mem hj ""
    have hnm_dc_u : (transform t).cols.getD j "" ∈ (transform t).dateCols :=
      List.mem_filter.mpr ⟨hnmem, by simpa using hdl⟩
    have hnm_dc : (transform t).cols.getD j "" ∈ t.dateCols := by
      rw [← transform_dateCols]
      exact hnm_dc_u
    have hidx : (transform t).cols.findIdx (· == (transform t).cols.getD j "") = j :=
      nodup_findIdx_eq hund hj
    have helem : (((transform t).dateCols.map
        (fun c => (transform t).cols.findIdx (· == c))).elem j) = true := by
      apply List.elem_iff.mpr
      apply List.mem_map.mpr
      exact ⟨(transform t).cols.getD j "", hnm_dc_u, hidx⟩
    have hfix : ∀ v ∈ (transform t).col j, toDatetime v = v := by
      intro v hv
      rcases List.mem_map.mp hv with ⟨r0, hr0, rfl⟩
      have hfx := transform_date_fixpoint t hwf hnm_dc r0 hr0
      rw [Table.cell, hidx] at hfx
      exact hfx
    rw [hC, helem]
    simp only [if_true]
    rw [hF]
    by_cases hna : (r.getD j .na).isNa = true
    · rw [if_pos hna, value_na_of_isNa hna]
      by_cases hall : ∀ v ∈ (transform t).col j, v.isNa = true
      · rw [fillValueFor_allNa hall]
        rfl
      · push_neg at hall
        rcases hall with ⟨v, hv, hvna⟩
        have hvna' : v.isNa = false := by
          rcases hb : v.isNa
          · rfl
          · exact absurd hb hvna
        rw [fillValueFor_unknown_of_date hfix hv hvna']
        decide
    · rw [if_neg hna]
      exact hfix _ (List.mem_map_of_mem _ hr)
  · -- a generic column: untouched by the conversion
    have hndl : lowerHas ((transform t).cols.getD j "") "date" = false := by
      rcases hb : lowerHas ((transform t).cols.getD j "") "date"
      · rfl
      · exact absurd hb hdl
    rcases transform_cols_precise t with ⟨ns, hcols, hder, hdt, hst⟩
    have hjt : j < t.cols.length := by
      by_contra hge
      push_neg at hge
      have hjns : j - t.cols.length < ns.length := by
        have hlen2 : j < (t.cols ++ ns).length := by rw [← hcols]; exact hj
        rw [List.length_append] at hlen2
        omega
      have hmem : (transform t).cols.getD j "" ∈ ns := by
        rw [hcols]
        have hx : (t.cols ++ ns).getD j "" = ns.getD (j - t.cols.length) "" := by
          rw [List.getD_eq_getElem?_getD, List.getD_eq_getElem?_getD,
            List.getElem?_append_right hge]
        rw [hx]
        exact getD_mem hjns ""
      have hder' := hder _ hmem
      rcases List.mem_append.mp (show (transform t).cols.getD j "" ∈
          timeFeatureNames ++ flagNames from hder') with htm | hfm
      · have hdne : t.dateCols ≠ [] := by
          intro hnil
          exact hdt hnil _ hmem htm
        exact hgnt ⟨htm, hdne⟩
      · have hsne : t.statusCols ≠ [] := by
          intro hnil
          exact hst hnil _ hmem hfm
        exact hgnf ⟨hfm, hsne⟩
    have hgetd : t.cols.getD j "" = (transform t).cols.getD j "" := by
      rw [hcols, getD_append_lt _ _ _ _ hjt]
    have hnelem : (((transform t).dateCols.map
        (fun c => (transform t).cols.findIdx (· == c))).elem j) = false := by
      by_contra hne
      have helem : (((transform t).dateCols.map
          (fun c => (transform t).cols.findIdx (· == c))).elem j) = true := by
        revert hne
        cases ((transform t).dateCols.map
          (fun c => (transform t).cols.findIdx (· == c))).elem j <;> simp
      rcases List.mem_map.mp (List.elem_iff.mp helem) with ⟨d, hdm, hdj⟩
      have hdm' : d ∈ (transform t).cols.filter (fun x => lowerHas x "date") := hdm
      have hdcm : d ∈ (transform t).cols := List.mem_of_mem_filter hdm'
      have hdd : lowerHas d "date" = true := by
        have hb := (List.mem_filter.mp hdm').2
        simpa using hb
      have hthis : (transform t).cols.getD j "" = d := by
        rw [← hdj]
        exact getD_findIdx_name hdcm
      rw [hthis, hdd] at hndl
      exact Bool.noConfusion hndl
    rw [hC, hnelem]
    simp only [Bool.false_eq_true, if_false]
    rw [hF]
    by_cases hna : (r.getD j .na).isNa = true
    · have hall := transform_generic_all_na t hwf hjt
        (by rw [hgetd]; exact hndl)
        (by
          intro hc
          rcases hc with ⟨hm, hne⟩
          rw [hgetd] at hm
          exact hgnt ⟨hm, hne⟩)
        (by
          intro hc
          rcases hc with ⟨hm, hne⟩
          rw [hgetd] at hm
          exact hgnf ⟨hm, hne⟩)
        hr hna
      have hallc : ∀ v ∈ (transform t).col j, v.isNa = true := by
        intro v hv
        rcases List.mem_map.mp hv with ⟨r0, hr0, rfl⟩
        exact hall r0 hr0
      rw [if_pos hna, fillValueFor_allNa hallc, value_na_of_isNa hna]
    · rw [if_neg hna]

theorem map_eq_self_of_mem {α : Type} {l : List α} {f : α → α}
    (h : ∀ x ∈ l, f x = x) : l.map f = l := by
  induction l with
  | nil => rfl
  | cons a as ih =>
    rw [List.map_cons, h a (List.mem_cons_self a as),
      ih (fun x hx => h x (List.mem_cons_of_mem a hx))]

/-- A second fill-and-convert restores the first date-like column. -/
theorem transform_restore_date (t : Table) (hwf : t.WF) (hnd : t.cols.Nodup) {cd : String}
    (hdc : t.dateCols.head? = some cd) {r : List Value} (hr : r ∈ (transform t).rows) :
    (convRowU (transform t) (fillRowU (transform t) r)).getD
        ((transform t).cols.findIdx (· == cd)) .na
      = r.getD ((transform t).cols.findIdx (· == cd)) .na := by
  have hcdu : cd ∈ (transform t).dateCols := by
    rw [transform_dateCols]
    exact List.mem_of_mem_head? hdc
  have hcdm : cd ∈ (transform t).cols := List.mem_of_mem_filter hcdu
  have hcdd : lowerHas cd "date" = true := by
    have hb := (List.mem_filter.mp (show cd ∈ (transform t).cols.filter
      (fun x => lowerHas x "date") from hcdu)).2
    simpa using hb
  refine transform_fillconvert_restore t hwf hnd hr (findIdx_name_lt hcdm) ?_ ?_
  · intro hcontra
    have hmm := hcontra.1
    rw [getD_findIdx_name hcdm] at hmm
    have hb := timeName_not_date cd hmm
    rw [hb] at hcdd
    exact Bool.noConfusion hcdd
  · intro hcontra
    have hmm := hcontra.1
    rw [getD_findIdx_name hcdm] at hmm
    have hb := flagName_not_date cd hmm
    rw [hb] at hcdd
    exact Bool.noConfusion hcdd

/-- A second fill-and-convert restores the first status-like column. -/
theorem transform_restore_status (t : Table) (hwf : t.WF) (hnd : t.cols.Nodup) {cs : String}
    (hsc : t.statusCols.head? = some cs) {r : List Value} (hr : r ∈ (transform t).rows) :
    (convRowU (transform t) (fillRowU (transform t) r)).getD
        ((transform t).cols.findIdx (· == cs)) .na
      = r.getD ((transform t).cols.findIdx (· == cs)) .na := by
  have hcsu : cs ∈ (transform t).statusCols := by
    rw [transform_statusCols]
    exact List.mem_of_mem_head? hsc
  have hcsm : cs ∈ (transform t).cols := List.mem_of_mem_filter hcsu
  have hcss : lowerHas cs "status" = true := by
    have hb := (List.mem_filter.mp (show cs ∈ (transform t).cols.filter
      (fun x => lowerHas x "status") from hcsu)).2
    simpa using hb
  refine transform_fillconvert_restore t hwf hnd hr (findIdx_name_lt hcsm) ?_ ?_
  · intro hcontra
    have hmm := hcontra.1
    rw [getD_findIdx_name hcsm] at hmm
    have hb := timeName_not_status cs hmm
    rw [hb] at hcss
    exact Bool.noConfusion hcss
  · intro hcontra
    have hmm := hcontra.1
    rw [getD_findIdx_name hcsm] at hmm
    have hb := flagName_not_status cs hmm
    rw [hb] at hcss
    exact Bool.noConfusion hcss

/-- Re-running the time-feature stage on restored fill-and-convert rows
reproduces the output's own time-feature cells. -/
theorem timeRowF_restore_at (t : Table) (hwf : t.WF) (hnd : t.cols.Nodup) {cd : String}
    (hdc : t.dateCols.head? = some cd) {r : List Value} (hr : r ∈ (transform t).rows)
    {j : Nat} (hj : j < (transform t).cols.length)
    (hjt : (transform t).cols.getD j "" ∈ timeFeatureNames)
    (h1 : "order_year" ∈ (transform t).cols) (h2 : "order_month" ∈ (transform t).cols)
    (h3 : "order_day_of_week" ∈ (transform t).cols)
    (h4 : "order_day_name" ∈ (transform t).cols) :
    (timeRowF (transform t).cols cd
        (convRowU (transform t) (fillRowU (transform t) r))).getD j .na = r.getD j .na := by
  have hund := transform_cols_nodup hnd
  have huwf := transform_wf hwf
  have hlenr : r.length = (transform t).cols.length := huwf r hr
  have hlcr : (convRowU (transform t) (fillRowU (transform t) r)).length =
      (transform t).cols.length :=
    calc (convRowU (transform t) (fillRowU (transform t) r)).length
        = (fillRowU (transform t) r).length := convertRow_length (transform t) _
      _ = (transform t).cols.length := fillRow_length (transform t) r hlenr
  have hres := transform_restore_date t hwf hnd hdc hr
  have hTI := transform_time_invariant t hwf hdc r hr
  simp only [Table.cell] at hTI
  have hfidx : (transform t).cols.findIdx (· == (transform t).cols.getD j "") = j :=
    nodup_findIdx_eq hund hj
  have hjt' := hjt
  simp only [timeFeatureNames, List.mem_cons, List.not_mem_nil, or_false] at hjt'
  rcases hjt' with hn | hn | hn | hn
  · have hji : (transform t).cols.findIdx (· == "order_year") = j := by
      rw [← hn]; exact hfidx
    have hF := (timeRowF_getD (transform t).cols cd _ hlcr h1 h2 h3 h4).1
    rw [hji] at hF
    rw [hF, hres]
    have hx := hTI.1
    rw [hji] at hx
    exact hx.symm
  · have hji : (transform t).cols.findIdx (· == "order_month") = j := by
      rw [← hn]; exact hfidx
    have hF := (timeRowF_getD (transform t).cols cd _ hlcr h1 h2 h3 h4).2.1
    rw [hji] at hF
    rw [hF, hres]
    have hx := hTI.2.1
    rw [hji] at hx
    exact hx.symm
  · have hji : (transform t).cols.findIdx (· == "order_day_of_week") = j := by
      rw [← hn]; exact hfidx
    have hF := (timeRowF_getD (transform t).cols cd _ hlcr h1 h2 h3 h4).2.2.1
    rw [hji] at hF
    rw [hF, hres]
    have hx := hTI.2.2.1
    rw [hji] at hx
    exact hx.symm
  · have hji : (transform t).cols.findIdx (· == "order_day_name") = j := by
      rw [← hn]; exact hfidx
    have hF := (timeRowF_getD (transform t).cols cd _ hlcr h1 h2 h3 h4).2.2.2.1
    rw [hji] at hF
    rw [hF, hres]
    have hx := hTI.2.2.2
    rw [hji] at hx
    exact hx.symm

/-- Re-running the flag stage on a row whose status cell is restored
reproduces the output's own flag cells. -/
theorem flagRowF_restore_at (t : Table) (hwf : t.WF) (hnd : t.cols.Nodup) {cs : String}
    (hsc : t.statusCols.head? = some cs) {r X : List Value} (hr : r ∈ (transform t).rows)
    (hlX : X.length = (transform t).cols.length)
    (hXs : X.getD ((transform t).cols.findIdx (· == cs)) .na
        = r.getD ((transform t).cols.findIdx (· == cs)) .na)
    {j : Nat} (hj : j < (transform t).cols.length)
    (hjf : (transform t).cols.getD j "" ∈ flagNames)
    (hfd : "is_delivered" ∈ (transform t).cols) (hfl : "is_late" ∈ (transform t).cols)
    (hfo : "is_on_time" ∈ (transform t).cols) :
    (flagRowF (transform t).cols cs X).getD j .na = r.getD j .na := by
  have hund := transform_cols_nodup hnd
  have hGI := transform_flag_invariant t hwf hsc r hr
  simp only [Table.cell] at hGI
  have hfidx : (transform t).cols.findIdx (· == (transform t).cols.getD j "") = j :=
    nodup_findIdx_eq hund hj
  have hjf' := hjf
  simp only [flagNames, List.mem_cons, List.not_mem_nil, or_false] at hjf'
  rcases hjf' with hn | hn | hn
  · have hji : (transform t).cols.findIdx (· == "is_delivered") = j := by
      rw [← hn]; exact hfidx
    have hF := (flagRowF_getD (transform t).cols cs X hlX hfd hfl hfo).1
    rw [hji] at hF
    rw [hF, hXs]
    have hx := hGI.1
    rw [hji] at hx
    exact hx.symm
  · have hji : (transform t).cols.findIdx (· == "is_late") = j := by
      rw [← hn]; exact hfidx
    have hF := (flagRowF_getD (transform t).cols cs X hlX hfd hfl hfo).2.1
    rw [hji] at hF
    rw [hF, hXs]
    have hx := hGI.2.1
    rw [hji] at hx
    exact hx.symm
  · have hji : (transform t).cols.findIdx (· == "is_on_time") = j := by
      rw [← hn]; exact hfidx
    have hF := (flagRowF_getD (transform t).cols cs X hlX hfd hfl hfo).2.2.1
    rw [hji] at hF
    rw [hF, hXs]
    have ha := hGI.1
    have hb := hGI.2.1
    have hx := hGI.2.2
    rw [hji] at hx
    rw [ha, hb] at hx
    exact hx.symm

/-- The pre-deduplication stages are a fixpoint on the output of
`transform` for a table with distinct column names whose first
identifier-like column (if any) is not also date-like. -/
theorem preDedup_transform_eq (t : Table) (hwf : t.WF) (hnd : t.cols.Nodup)
    (hid : ∀ c, t.idCols.head? = some c → lowerHas c "date" = false) :
    addFlags (addTimeFeatures (convertDates (fillMissing (transform t)))) = transform t := by
  have huwf : (transform t).WF := transform_wf hwf
  have hwf3 : (convertDates (fillMissing (transform t))).WF :=
    convertDates_wf (fillMissing_wf huwf)
  have h3eq : convertDates (fillMissing (transform t)) =
      ⟨(transform t).cols, (transform t).rows.map
        (fun r => convRowU (transform t) (fillRowU (transform t) r))⟩ := by
    show (⟨(transform t).cols,
      ((transform t).rows.map (fillRowU (transform t))).map (convRowU (transform t))⟩ :
        Table) = _
    rw [List.map_map]
    rfl
  have h3r : (convertDates (fillMissing (transform t))).rows =
      (transform t).rows.map
        (fun r => convRowU (transform t) (fillRowU (transform t) r)) :=
    congrArg Table.rows h3eq
  have hlen5 : ∀ r ∈ (transform t).rows,
      (convRowU (transform t) (fillRowU (transform t) r)).length = r.length := by
    intro r hr
    have hlr : r.length = (transform t).cols.length := huwf r hr
    calc (convRowU (transform t) (fillRowU (transform t) r)).length
        = (fillRowU (transform t) r).length := convertRow_length (transform t) _
      _ = (transform t).cols.length := fillRow_length (transform t) r hlr
      _ = r.length := hlr.symm
  rcases hdc : t.dateCols.head? with _ | cd
  · -- no date-like column: the time stage is the identity
    have hdnil : t.dateCols = [] := by
      rcases hl : t.dateCols with _ | ⟨a, l⟩
      · rfl
      · rw [hl] at hdc
        simp at hdc
    have hdcu3 : (convertDates (fillMissing (transform t))).dateCols.head? = none := by
      show (transform t).dateCols.head? = none
      rw [transform_dateCols, hdc]
    have h4 : addTimeFeatures (convertDates (fillMissing (transform t))) =
        convertDates (fillMissing (transform t)) := by
      rw [addTimeFeatures, hdcu3]
    rcases hsc : t.statusCols.head? with _ | cs
    · -- neither active stage
      have hsnil : t.statusCols = [] := by
        rcases hl : t.statusCols with _ | ⟨a, l⟩
        · rfl
        · rw [hl] at hsc
          simp at hsc
      have hscu4 : (addTimeFeatures (convertDates
          (fillMissing (transform t)))).statusCols.head? = none := by
        rw [h4]
        show (transform t).statusCols.head? = none
        rw [transform_statusCols, hsc]
      have h5 : addFlags (addTimeFeatures (convertDates (fillMissing (transform t)))) =
          addTimeFeatures (convertDates (fillMissing (transform t))) := by
        rw [addFlags, hscu4]
      rw [h5, h4, h3eq]
      refine table_eq rfl ?_
      show (transform t).rows.map
        (fun r => convRowU (transform t) (fillRowU (transform t) r)) = (transform t).rows
      apply map_eq_self_of_mem
      intro r hr
      apply list_eq_of_getD (hlen5 r hr)
      intro j hjl
      have hj : j < (transform t).cols.length := by
        rw [hlen5 r hr, huwf r hr] at hjl
        exact hjl
      exact transform_fillconvert_restore t hwf hnd hr hj
        (fun hcontra => hcontra.2 hdnil) (fun hcontra => hcontra.2 hsnil)
    · -- flags only
      have hfmem : ∀ n ∈ flagNames, n ∈ (transform t).cols := by
        intro n hn
        have hs4 : (addTimeFeatures (convertDates
            (fillMissing (dropIdNa t)))).statusCols.head? = some cs := by
          rw [statusCols_stage4, hsc]
        exact flagNames_mem_addFlags hs4 n hn
      have hfd := hfmem "is_delivered" (by decide)
      have hfl := hfmem "is_late" (by decide)
      have hfo := hfmem "is_on_time" (by decide)
      have hsc3 : (convertDates (fillMissing (transform t))).statusCols.head? = some cs := by
        show (transform t).statusCols.head? = some cs
        rw [transform_statusCols, hsc]
      have h5 := addFlags_rows_overwrite hwf3 hsc3 hfd hfl hfo
      rw [h4, h5]
      refine table_eq rfl ?_
      show (convertDates (fillMissing (transform t))).rows.map
          (flagRowF (transform t).cols cs) = (transform t).rows
      rw [h3r, List.map_map]
      apply map_eq_self_of_mem
      intro r hr
      show flagRowF (transform t).cols cs
        (convRowU (transform t) (fillRowU (transform t) r)) = r
      have hlcr : (convRowU (transform t) (fillRowU (transform t) r)).length =
          (transform t).cols.length := by
        rw [hlen5 r hr]
        exact huwf r hr
      apply list_eq_of_getD
      · rw [(flagRowF_getD (transform t).cols cs _ hlcr hfd hfl hfo).2.2.2.2, hlen5 r hr]
      · intro j hjl
        have hj : j < (transform t).cols.length := by
          rw [(flagRowF_getD (transform t).cols cs _ hlcr hfd hfl hfo).2.2.2.2, hlcr] at hjl
          exact hjl
        by_cases hjf : (transform t).cols.getD j "" ∈ flagNames
        · exact flagRowF_restore_at t hwf hnd hsc hr hlcr
            (transform_restore_status t hwf hnd hsc hr) hj hjf hfd hfl hfo
        · rw [flagRowF_preserve_name hjf cs _ hlcr hfd hfl hfo]
          exact transform_fillconvert_restore t hwf hnd hr hj
            (fun hcontra => hcontra.2 hdnil) (fun hcontra => hjf hcontra.1)
  · -- a date-like column is active
    have htmem : ∀ n ∈ timeFeatureNames, n ∈ (transform t).cols := by
      intro n hn
      have hs3 : (convertDates (fillMissing (dropIdNa t))).dateCols.head? = some cd := by
        rw [dateCols_stage3, hdc]
      exact colsExt_mem (addFlags_colsExt _) (timeNames_mem_addTimeFeatures hs3 n hn)
    have hoy := htmem "order_year" (by decide)
    have hom := htmem "order_month" (by decide)
    have hodw := htmem "order_day_of_week" (by decide)
    have hodn := htmem "order_day_name" (by decide)
    have hdcu3 : (convertDates (fillMissing (transform t))).dateCols.head? = some cd := by
      show (transform t).dateCols.head? = some cd
      rw [transform_dateCols, hdc]
    have h4 := addTimeFeatures_rows_overwrite hwf3 hdcu3 hoy hom hodw hodn
    rcases hsc : t.statusCols.head? with _ | cs
    · -- time features only
      have hsnil : t.statusCols = [] := by
        rcases hl : t.statusCols with _ | ⟨a, l⟩
        · rfl
        · rw [hl] at hsc
          simp at hsc
      have hscu4 : (addTimeFeatures (convertDates
          (fillMissing (transform t)))).statusCols.head? = none := by
        rw [h4]
        show (transform t).statusCols.head? = none
        rw [transform_statusCols, hsc]
      have h5 : addFlags (addTimeFeatures (convertDates (fillMissing (transform t)))) =
          addTimeFeatures (convertDates (fillMissing (transform t))) := by
        rw [addFlags, hscu4]
      rw [h5, h4]
      refine table_eq rfl ?_
      show (convertDates (fillMissing (transform t))).rows.map
          (timeRowF (transform t).cols cd) = (transform t).rows
      rw [h3r, List.map_map]
      apply map_eq_self_of_mem
      intro r hr
      show timeRowF (transform t).cols cd
        (convRowU (transform t) (fillRowU (transform t) r)) = r
      have hlcr : (convRowU (transform t) (fillRowU (transform t) r)).length =
          (transform t).cols.length := by
        rw [hlen5 r hr]
        exact huwf r hr
      apply list_eq_of_getD
      · rw [(timeRowF_getD (transform t).cols cd _ hlcr hoy hom hodw hodn).2.2.2.2.2,
          hlen5 r hr]
      · intro j hjl
        have hj : j < (transform t).cols.length := by
          rw [(timeRowF_getD (transform t).cols cd _ hlcr hoy hom hodw hodn).2.2.2.2.2,
            hlcr] at hjl
          exact hjl
        by_cases hjt : (transform t).cols.getD j "" ∈ timeFeatureNames
        · exact timeRowF_restore_at t hwf hnd hdc hr hj hjt hoy hom hodw hodn
        · rw [timeRowF_preserve_name hjt cd _ hlcr hoy hom hodw hodn]
          exact transform_fillconvert_restore t hwf hnd hr hj
            (fun hcontra => hjt hcontra.1) (fun hcontra => hcontra.2 hsnil)
    · -- both stages active
      have hfmem : ∀ n ∈ flagNames, n ∈ (transform t).cols := by
        intro n hn
        have hs4 : (addTimeFeatures (convertDates
            (fillMissing (dropIdNa t)))).statusCols.head? = some cs := by
          rw [statusCols_stage4, hsc]
        exact flagNames_mem_addFlags hs4 n hn
      have hfd := hfmem "is_delivered" (by decide)
      have hfl := hfmem "is_late" (by decide)
      have hfo := hfmem "is_on_time" (by decide)
      have hsc4 : (addTimeFeatures (convertDates
          (fillMissing (transform t)))).statusCols.head? = some cs := by
        rw [h4]
        show (transform t).statusCols.head? = some cs
        rw [transform_statusCols, hsc]
      have hfd4 : "is_delivered" ∈ (addTimeFeatures (convertDates
          (fillMissing (transform t)))).cols := by
        rw [h4]
        exact hfd
      have hfl4 : "is_late" ∈ (addTimeFeatures (convertDates
          (fillMissing (transform t)))).cols := by
        rw [h4]
        exact hfl
      have hfo4 : "is_on_time" ∈ (addTimeFeatures (convertDates
          (fillMissing (transform t)))).cols := by
        rw [h4]
        exact hfo
      have h5 := addFlags_rows_overwrite (addTimeFeatures_wf hwf3) hsc4 hfd4 hfl4 hfo4
      rw [h5, h4]
      refine table_eq rfl ?_
      show ((convertDates (fillMissing (transform t))).rows.map
          (timeRowF (transform t).cols cd)).map (flagRowF (transform t).cols cs) =
        (transform t).rows
      rw [h3r, List.map_map, List.map_map]
      apply map_eq_self_of_mem
      intro r hr
      show flagRowF (transform t).cols cs (timeRowF (transform t).cols cd
        (convRowU (transform t) (fillRowU (transform t) r))) = r
      have hlcr : (convRowU (transform t) (fillRowU (transform t) r)).length =
          (transform t).cols.length := by
        rw [hlen5 r hr]
        exact huwf r hr
      have hlX : (timeRowF (transform t).cols cd
          (convRowU (transform t) (fillRowU (transform t) r))).length =
          (transform t).cols.length := by
        rw [(timeRowF_getD (transform t).cols cd _ hlcr hoy hom hodw hodn).2.2.2.2.2]
        exact hlcr
      apply list_eq_of_getD
      · rw [(flagRowF_getD (transform t).cols cs _ hlX hfd hfl hfo).2.2.2.2, hlX,
          (huwf r hr).symm]
      · intro j hjl
        have hj : j < (transform t).cols.length := by
          rw [(flagRowF_getD (transform t).cols cs _ hlX hfd hfl hfo).2.2.2.2, hlX] at hjl
          exact hjl
        by_cases hjt : (transform t).cols.getD j "" ∈ timeFeatureNames
        · rw [flagRowF_preserve_name (time_not_flag _ hjt) cs _ hlX hfd hfl hfo]
          exact timeRowF_restore_at t hwf hnd hdc hr hj hjt hoy hom hodw hodn
        · by_cases hjf : (transform t).cols.getD j "" ∈ flagNames
          · -- the status column itself is untouched by the time stage
            have hcsu : cs ∈ (transform t).statusCols := by
              rw [transform_statusCols]
              exact List.mem_of_mem_head? hsc
            have hcsm : cs ∈ (transform t).cols := List.mem_of_mem_filter hcsu
            have hcss : lowerHas cs "status" = true := by
              have hb := (List.mem_filter.mp (show cs ∈ (transform t).cols.filter
                (fun x => lowerHas x "status") from hcsu)).2
              simpa using hb
            have hcs_nt : (transform t).cols.getD
                ((transform t).cols.findIdx (· == cs)) "" ∉ timeFeatureNames := by
              rw [getD_findIdx_name hcsm]
              intro hmm
              have hb := timeName_not_status cs hmm
              rw [hb] at hcss
              exact Bool.noConfusion hcss
            have hXs : (timeRowF (transform t).cols cd
                (convRowU (transform t) (fillRowU (transform t) r))).getD
                  ((transform t).cols.findIdx (· == cs)) .na
                = r.getD ((transform t).cols.findIdx (· == cs)) .na := by
              rw [timeRowF_preserve_name hcs_nt cd _ hlcr hoy hom hodw hodn]
              exact transform_restore_status t hwf hnd hsc hr
            exact flagRowF_restore_at t hwf hnd hsc hr hlX hXs hj hjf hfd hfl hfo
          · rw [flagRowF_preserve_name hjf cs _ hlX hfd hfl hfo,
              timeRowF_preserve_name hjt cd _ hlcr hoy hom hodw hodn]
            exact transform_fillconvert_restore t hwf hnd hr hj
              (fun hcontra => hjt hcontra.1) (fun hcontra => hjf hcontra.1)

/-- C1 as stated is false: the single text `"not a date"` in the
date-like column is coerced to a null timestamp by the date conversion,
so the output table has missing cells in the date column and in all
four derived time-feature columns. -/
theorem missing_cells_counterexample :
    hasMissing (transform ⟨["order_date"], [[.str "not a date"]]⟩) = true := by
  decide

/-- C1 (amended): after `transform`, a missing cell can sit only in a
date-like column, in one of the four derived time-feature columns, or
in an original column that entered the fill step numeric and entirely
missing (whose median fill is itself `NaN`); every other cell is
populated. -/
theorem missing_cells_localized (t : Table) (hwf : t.WF) :
    ∀ r ∈ (transform t).rows, ∀ j, j < (transform t).cols.length →
      (r.getD j .na).isNa = true →
      lowerHas ((transform t).cols.getD j "") "date" = true ∨
      ((transform t).cols.getD j "" ∈ timeFeatureNames) ∨
      (j < t.cols.length ∧ isNumericCol ((dropIdNa t).col j) = true ∧
        ∀ v ∈ (dropIdNa t).col j, v.isNa = true) := by
  intro r hr j hj hna
  have hw1 : (dropIdNa t).WF := dropIdNa_wf hwf
  have hw2 : (fillMissing (dropIdNa t)).WF := fillMissing_wf hw1
  have hw3 : (convertDates (fillMissing (dropIdNa t))).WF := convertDates_wf hw2
  have hw4 : (addTimeFeatures (convertDates (fillMissing (dropIdNa t)))).WF :=
    addTimeFeatures_wf hw3
  have hrm : r ∈ (addFlags (addTimeFeatures (convertDates (fillMissing (dropIdNa t))))).rows :=
    (keepFirst_mem _ _ _ hr).1
  have hcolsfd : (fillMissing (dropIdNa t)).cols = t.cols := by
    rw [fillMissing_cols, dropIdNa_cols]
  have hjf : j < (addFlags (addTimeFeatures (convertDates (fillMissing (dropIdNa t))))).cols.length :=
    hj
  rcases addFlags_na_src hw4 hrm with ⟨r4, hr4, h5⟩
  rcases h5 j hjf hna with ⟨hj4, hna4⟩
  rcases addTimeFeatures_na_src hw3 hr4 with ⟨r3, hr3, h4⟩
  rcases h4 j hj4 hna4 with hn4 | ⟨hj3, hna3⟩
  · right; left
    show (addFlags (addTimeFeatures (convertDates (fillMissing (dropIdNa t))))).cols.getD j ""
      ∈ timeFeatureNames
    rw [(colsExt_getD (addFlags_colsExt
      (addTimeFeatures (convertDates (fillMissing (dropIdNa t))))) hj4).1]
    exact hn4
  · have hj3' : j < t.cols.length := by
      rw [← hcolsfd]
      exact hj3
    rcases convertDates_na_src hw2 hr3 with ⟨r2, hr2, h3⟩
    rcases h3 j hj3 hna3 with hdate | hna2
    · left
      rcases transform_colsExt t with ⟨ns, hcols, _⟩
      rw [hcols, getD_append_lt _ _ _ _ hj3']
      rw [hcolsfd] at hdate
      exact hdate
    · rcases fillMissing_na_src hw1 hr2 with ⟨r1, hr1, h2⟩
      have hjd : j < (dropIdNa t).cols.length := by
        rw [dropIdNa_cols]
        exact hj3'
      rcases h2 j hjd hna2 with ⟨hnum, hallna⟩
      right; right
      exact ⟨hj3', hnum, hallna⟩

/-- Witness for C1 at a concrete table: the missing cell at index 1 of
the output is in the derived column `order_year`. -/
theorem missing_cells_localized_witness :
    lowerHas ((transform ⟨["order_date"], [[.str "x"]]⟩).cols.getD 1 "") "date" = true ∨
    ((transform ⟨["order_date"], [[.str "x"]]⟩).cols.getD 1 "" ∈ timeFeatureNames) ∨
    (1 < (⟨["order_date"], [[.str "x"]]⟩ : Table).cols.length ∧
      isNumericCol ((dropIdNa ⟨["order_date"], [[.str "x"]]⟩).col 1) = true ∧
      ∀ v ∈ (dropIdNa ⟨["order_date"], [[.str "x"]]⟩).col 1, v.isNa = true) :=
  missing_cells_localized ⟨["order_date"], [[.str "x"]]⟩ (by decide)
    [.na, .na, .na, .na, .na] (by decide) 1 (by decide) (by decide)

/-! ## C2: idempotence of transform -/

/-- C2 as stated is false: the column `"valid_date"` is both
identifier-like and date-like, so the first pass coerces its value to a
null date and the second pass's identifier-gap drop removes the row —
re-running `transform` on its own output is not a no-op. -/
theorem transform_not_idempotent :
    transform (transform ⟨["valid_date"], [[.str "X"]]⟩) ≠
      transform ⟨["valid_date"], [[.str "X"]]⟩ := by
  decide

/-- C2 (amended): `transform` is idempotent on well-formed tables with
pairwise-distinct column names (guaranteed for CSV input, where
duplicate headers are mangled on read) whose first identifier-like
column, if any, is not also date-like: re-feeding the cleaned table
reproduces it exactly, including the re-derived flag and time-feature
columns. -/
theorem transform_idempotent (t : Table) (hwf : t.WF) (hnd : t.cols.Nodup)
    (hid : ∀ c, t.idCols.head? = some c → lowerHas c "date" = false) :
    transform (transform t) = transform t := by
  have hA : dropIdNa (transform t) = transform t := dropIdNa_transform_fix t hwf hid
  have hP := preDedup_transform_eq t hwf hnd hid
  have hpw : List.Pairwise (fun a b => a ≠ b) (transform t).rows :=
    keepFirst_pairwise (preDedup t).rows []
  show dedupRows (addFlags (addTimeFeatures (convertDates
    (fillMissing (dropIdNa (transform t)))))) = transform t
  rw [hA, hP]
  refine table_eq rfl ?_
  show keepFirst [] (transform t).rows = (transform t).rows
  exact keepFirst_of_pairwise _ [] hpw (fun x _ => List.not_mem_nil x)

/-- Witness for C2 at a concrete order table with identifier, date and
status columns. -/
theorem transform_idempotent_witness :
    transform (transform ⟨["order_id", "order_date", "status"],
        [[.str "A1", .str "2024-01-05", .str "Delivered"]]⟩) =
      transform ⟨["order_id", "order_date", "status"],
        [[.str "A1", .str "2024-01-05", .str "Delivered"]]⟩ :=
  transform_idempotent ⟨["order_id", "order_date", "status"],
      [[.str "A1", .str "2024-01-05", .str "Delivered"]]⟩
    (by decide) (by decide)
    (by
      intro c hc
      have h2 : "order_id" = c := Option.some.inj hc
      rw [← h2]
      decide)

/-! ## C5: deduplication -/

/-- C5: for every input table, the output of `transform` contains no
two rows that are equal in every column, and the retained rows are
exactly the spec's keep-first-occurrence scan of the pre-deduplication
table. -/
theorem transform_dedup_keeps_first (t : Table) :
    List.Pairwise (· ≠ ·) (transform t).rows ∧
    (transform t).rows = specKeepFirst (preDedup t).rows := by
  constructor
  · exact keepFirst_pairwise _ _
  · show keepFirst [] (preDedup t).rows = specKeepFirst (preDedup t).rows
    unfold specKeepFirst
    exact ((foldl_keepFirst (preDedup t).rows []).trans (List.nil_append _)).symm

/-! ## C6: extract and SourceNotFound -/

/-- C6: `extract` fails with *SourceNotFound* iff the raw input path
does not exist, and when it fails the run aborts with the pipeline
state (in particular the processed-dataset path) unchanged. -/
theorem extract_source_not_found (s : PipeState) (env : DBEnv) (b : Bool) :
    (extract s = .error .sourceNotFound ↔ s.rawExists = false) ∧
    (s.rawExists = false → runPipeline s env b = (s, .error .sourceNotFound)) := by
  constructor
  · cases h : s.rawExists <;> simp [extract, h]
  · intro h
    simp [runPipeline, extract, h]

/-- Witness for C6 at a concrete state with a missing raw file. -/
theorem extract_source_not_found_witness :
    runPipeline ⟨false, emptyTable, none⟩ ⟨true, true, true, true, true, true⟩ true =
      (⟨false, emptyTable, none⟩, .error .sourceNotFound) :=
  (extract_source_not_found ⟨false, emptyTable, none⟩ ⟨true, true, true, true, true, true⟩ true).2 rfl

/-! ## C7: the database sink is never fatal -/

/-- C7: `load_to_database` never causes the run to fail: it reports
`skipped` exactly when the driver is unavailable, any failing external
step yields a logged failure rather than an exception, and the run's
result and file-sink state are independent of the database environment. -/
theorem load_to_database_never_fatal (env : DBEnv) (df : Table) :
    ((loadToDatabase env df).outcome = .skipped ↔ env.driverAvailable = false) ∧
    (env.driverAvailable = true →
      (env.connectOk && env.dropOk && env.createOk && env.insertOk && env.verifyOk) = false →
      (loadToDatabase env df).outcome = .failedLogged) ∧
    (∀ (s : PipeState) (b : Bool) (env' : DBEnv),
      (runPipeline s env b).2.isOk = (runPipeline s env' b).2.isOk ∧
      (runPipeline s env b).1 = (runPipeline s env' b).1) := by
  refine ⟨?_, ?_, ?_⟩
  · rcases env with ⟨d, c, dr, cr, i, v⟩
    cases d <;> cases c <;> cases dr <;> cases cr <;> cases i <;> cases v <;>
      simp [loadToDatabase, dbAttempt]
  · rcases env with ⟨d, c, dr, cr, i, v⟩
    cases d <;> cases c <;> cases dr <;> cases cr <;> cases i <;> cases v <;>
      simp [loadToDatabase, dbAttempt]
  · intro s b env'
    rcases hex : extract s with e | raw
    · simp [runPipeline, hex]
    · rcases hv : validate (transform raw) with e | d
      · simp [runPipeline, hex, hv]
      · cases b <;> simp [runPipeline, hex, hv, Except.isOk, Except.toBool]

/-- Witness for C7 at a concrete environment with a failing insert. -/
theorem load_to_database_never_fatal_witness :
    (loadToDatabase ⟨true, true, true, true, false, true⟩ emptyTable).outcome = .failedLogged :=
  (load_to_database_never_fatal ⟨true, true, true, true, false, true⟩ emptyTable).2.1 rfl rfl

/-! ## C9: connection lifetime -/

/-- C9 as stated is false: when a step after the connection is opened
fails (here the `DROP TABLE`), the `except` handler returns from the
stage without closing the connection. -/
theorem connection_left_open_on_failure :
    (loadToDatabase ⟨true, true, false, true, true, true⟩ emptyTable).connOpened = true ∧
    (loadToDatabase ⟨true, true, false, true, true, true⟩ emptyTable).connClosed = false := by
  decide

/-- C9 amended: a connection is opened exactly when the driver is
available and the connect call succeeds, and it is closed before the
stage returns exactly when every later step also succeeds; on any
failure after opening, the stage still returns normally but the
connection is left open. -/
theorem connection_closed_iff_all_ok (env : DBEnv) (df : Table) :
    (loadToDatabase env df).connOpened = (env.driverAvailable && env.connectOk) ∧
    (loadToDatabase env df).connClosed =
      (env.driverAvailable && env.connectOk && env.dropOk && env.createOk &&
        env.insertOk && env.verifyOk) := by
  rcases env with ⟨d, c, dr, cr, i, v⟩
  cases d <;> cases c <;> cases dr <;> cases cr <;> cases i <;> cases v <;>
    exact ⟨rfl, rfl⟩

/-! ## C10: transform does not mutate the raw table -/

/-- C10: `transform` copies `self.raw_df` and mutates only the copy, so
the heap cell holding the raw table is unchanged after the call. -/
theorem transform_preserves_raw (h : EtlHeap) (rawRef : Nat)
    (hlt : rawRef < h.cells.length) :
    (transformOnHeap h rawRef).1.cells.getD rawRef emptyTable =
      h.cells.getD rawRef emptyTable := by
  unfold transformOnHeap copyAlloc writeRef
  simp only
  rw [List.getD_eq_getElem?_getD, List.getD_eq_getElem?_getD,
    List.getElem?_set_ne (by omega), List.getElem?_append_left hlt]

/-- Witness for C10 at a concrete one-cell heap. -/
theorem transform_preserves_raw_witness :
    (transformOnHeap ⟨[⟨["a_id"], [[.str "x"]]⟩]⟩ 0).1.cells.getD 0 emptyTable =
      (⟨[⟨["a_id"], [[.str "x"]]⟩]⟩ : EtlHeap).cells.getD 0 emptyTable :=
  transform_preserves_raw ⟨[⟨["a_id"], [[.str "x"]]⟩]⟩ 0 (by decide)

/-! ## C8: validate halts on an empty table with an id column -/

/-- C8 is contradicted by the code: `validate` divides the id-column
distinct count by `float(len(df))` without the zero guard that the
missing-percentage metric has, so a transformed table with an
identifier-like column and zero rows (here: the single row's id is
missing, so the id-gap drop removes it) raises `ZeroDivisionError` and
halts the pipeline. -/
theorem validate_zero_division_on_empty :
    validate (transform ⟨["order_id"], [[.na]]⟩) = .error .zeroDivision := by
  rfl

end DeliveryETL
